import Mathlib

/-!
Shallow embedding of the SkyPanel scripts (src/scripts/config.py,
src/scripts/session.py, src/scripts/get_feeds.py) and proofs of the
specification claims about them.

Python dictionaries are modelled as association lists in insertion order
(`List (String × α)`), with lookup returning the value of the unique entry
for a key (Python dicts have unique keys; the model's `pyInsert` preserves
this).  JSON-decoded Python values are modelled by the inductive type
`Json`.  JSON numbers are modelled as integers; IEEE-754 float values are
outside the embedding.  Filesystem state is a map from path to optional
file content; network effects are modelled by returning the request a
function would issue (or an error when it raises before issuing one).
-/

namespace SkyPanel

/-- JSON-compatible Python values as produced by json.loads: None, bool,
int (floats are outside the embedding), str, list, and dict with string
keys in insertion order. -/
inductive Json where
  | null : Json
  | bool (b : Bool) : Json
  | num (n : Int) : Json
  | str (s : String) : Json
  | arr (items : List Json) : Json
  | obj (fields : List (String × Json)) : Json

/-- Python truthiness of a JSON-compatible value: None, False, 0, empty
string, empty list and empty dict are falsy, everything else truthy. -/
def Json.truthy : Json → Bool
  | .null => false
  | .bool b => b
  | .num n => n != 0
  | .str s => s != ""
  | .arr [] => false
  | .arr (_ :: _) => true
  | .obj [] => false
  | .obj (_ :: _) => true

/-- Python dict lookup d.get(k): the value of the entry for k, if any
(first occurrence; model dicts keep keys unique). -/
def dictGet {α : Type} : List (String × α) → String → Option α
  | [], _ => none
  | (k, v) :: rest, key => if k = key then some v else dictGet rest key

/-- Python dict assignment d[k] = v: update the existing entry for k in
place, keeping its position, or append a new entry. -/
def pyInsert {α : Type} : List (String × α) → String → α → List (String × α)
  | [], key, v => [(key, v)]
  | (k, w) :: rest, key, v =>
    if k = key then (k, v) :: rest else (k, w) :: pyInsert rest key v

/-- The configuration record returned by get_config: the three required
values (pds_host, handle, password). -/
structure Config where
  pds_host : String
  handle : String
  password : String
  deriving Repr, DecidableEq

/-! ## get_feeds.py -/

/-- Python s.rstrip("/"): remove all trailing '/' characters. -/
def rstripSlash (s : String) : String :=
  String.mk ((s.data.reverse.dropWhile (fun c => c = '/')).reverse)

/-- Hexadecimal digit character for n < 16, uppercase (as used by
urllib.parse.quote percent-encoding). -/
def hexDigitUpper : Nat → Char
  | 0 => '0'
  | 1 => '1'
  | 2 => '2'
  | 3 => '3'
  | 4 => '4'
  | 5 => '5'
  | 6 => '6'
  | 7 => '7'
  | 8 => '8'
  | 9 => '9'
  | 10 => 'A'
  | 11 => 'B'
  | 12 => 'C'
  | 13 => 'D'
  | 14 => 'E'
  | 15 => 'F'
  | _ => '*'

/-- UTF-8 encoding of a unicode scalar value, as the list of its bytes. -/
def utf8Bytes (n : Nat) : List Nat :=
  if n < 0x80 then [n]
  else if n < 0x800 then [0xC0 + n / 0x40, 0x80 + n % 0x40]
  else if n < 0x10000 then
    [0xE0 + n / 0x1000, 0x80 + n / 0x40 % 0x40, 0x80 + n % 0x40]
  else
    [0xF0 + n / 0x40000, 0x80 + n / 0x1000 % 0x40, 0x80 + n / 0x40 % 0x40,
      0x80 + n % 0x40]

/-- Characters urllib.parse never percent-encodes: ASCII letters, digits,
and the four marks kept by quote. -/
def urlSafe (c : Char) : Bool :=
  c.isAlphanum || c = '_' || c = '.' || c = '-' || c = '~'

/-- urllib.parse.quote_plus of one character: space becomes '+', safe
characters stay, everything else is percent-encoded per UTF-8 byte with
uppercase hex. -/
def quotePlusChar (c : Char) : List Char :=
  if c = ' ' then ['+']
  else if urlSafe c then [c]
  else (utf8Bytes c.toNat).flatMap
    (fun b => ['%', hexDigitUpper (b / 16), hexDigitUpper (b % 16)])

/-- urllib.parse.quote_plus of a string. -/
def quotePlus (s : String) : String :=
  String.mk (s.data.flatMap quotePlusChar)

/-- urllib.parse.urlencode of pairs of strings: key=value pairs joined by
ampersands, keys and values quote_plus-encoded. -/
def urlencode (params : List (String × String)) : String :=
  String.intercalate "&"
    (params.map (fun kv => quotePlus kv.1 ++ "=" ++ quotePlus kv.2))

/-- URL construction of fetch (get_feeds.py lines 9-14): base is the host
with trailing slashes stripped, then "/xrpc/" and the endpoint; the
URL-encoded query string is appended after '?' only when params is
non-empty (Python dict truthiness). -/
def buildUrl (cfg : Config) (endpoint : String) (params : List (String × String)) :
    String :=
  let base := rstripSlash cfg.pds_host ++ "/xrpc/" ++ endpoint
  if params = [] then base else base ++ "?" ++ urlencode params

/-- Error raised by fetch before any request is sent: RuntimeError("No
access JWT found in session"). -/
inductive FetchError where
  | noAccessJwt : FetchError
  deriving Repr, DecidableEq

/-- The HTTP GET request fetch issues: its URL and the bearer token placed
in the Authorization header. -/
structure Request where
  url : String
  token : Json

/-- Python x or y on optional values: y when x is absent or falsy. -/
def pyOr (a b : Option Json) : Option Json :=
  match a with
  | some v => if v.truthy then some v else b
  | none => b

/-- fetch (get_feeds.py lines 8-22): build the URL, extract the token as
session.get("accessJwt") or session.get("jwt"), raise when the token is
absent or falsy, otherwise issue the GET request with the bearer token.
The network response is external; the model returns the request issued. -/
def fetch (endpoint : String) (params : List (String × String))
    (session : List (String × Json)) (cfg : Config) : Except FetchError Request :=
  let url := buildUrl cfg endpoint params
  match pyOr (dictGet session "accessJwt") (dictGet session "jwt") with
  | none => .error .noAccessJwt
  | some t => if t.truthy then .ok { url := url, token := t } else .error .noAccessJwt

/-- Params assembled by get_timeline: limit always, cursor only when
supplied. -/
def timelineParams (limit : Int) (cursor : Option String) : List (String × String) :=
  match cursor with
  | none => [("limit", toString limit)]
  | some c => [("limit", toString limit), ("cursor", c)]

/-- get_timeline (get_feeds.py lines 25-35). -/
def get_timeline (session : List (String × Json)) (cfg : Config)
    (limit : Int) (cursor : Option String) : Except FetchError Request :=
  fetch "app.bsky.feed.getTimeline" (timelineParams limit cursor) session cfg

/-- Params assembled by get_follows: actor and limit always, cursor only
when supplied. -/
def followsParams (actor : String) (limit : Int) (cursor : Option String) :
    List (String × String) :=
  match cursor with
  | none => [("actor", actor), ("limit", toString limit)]
  | some c => [("actor", actor), ("limit", toString limit), ("cursor", c)]

/-- get_follows (get_feeds.py lines 38-48). -/
def get_follows (session : List (String × Json)) (cfg : Config) (actor : String)
    (limit : Int) (cursor : Option String) : Except FetchError Request :=
  fetch "app.bsky.graph.getFollows" (followsParams actor limit cursor) session cfg

/-- Params assembled by get_author_feed: actor and limit always, cursor
only when supplied. -/
def authorFeedParams (actor : String) (limit : Int) (cursor : Option String) :
    List (String × String) :=
  match cursor with
  | none => [("actor", actor), ("limit", toString limit)]
  | some c => [("actor", actor), ("limit", toString limit), ("cursor", c)]

/-- get_author_feed (get_feeds.py lines 51-61). -/
def get_author_feed (session : List (String × Json)) (cfg : Config) (actor : String)
    (limit : Int) (cursor : Option String) : Except FetchError Request :=
  fetch "app.bsky.feed.getAuthorFeed" (authorFeedParams actor limit cursor) session cfg

/-- Params assembled by search_posts: query and limit always, cursor only
when supplied. -/
def searchPostsParams (query : String) (limit : Int) (cursor : Option String) :
    List (String × String) :=
  match cursor with
  | none => [("query", query), ("limit", toString limit)]
  | some c => [("query", query), ("limit", toString limit), ("cursor", c)]

/-- search_posts (get_feeds.py lines 64-74). -/
def search_posts (session : List (String × Json)) (cfg : Config) (query : String)
    (limit : Int) (cursor : Option String) : Except FetchError Request :=
  fetch "app.bsky.feed.searchPosts" (searchPostsParams query limit cursor) session cfg

/-! ## config.py -/

/-- Python str.strip() on a character list: whitespace characters removed
from both ends. -/
def isPySpace (c : Char) : Bool :=
  c = ' ' || c = '\t' || c = '\n' || c = '\x0d' || c = '\x0b' || c = '\x0c'

/-- Python str.strip() of a character list. -/
def pyStripList (l : List Char) : List Char :=
  ((l.dropWhile isPySpace).reverse.dropWhile isPySpace).reverse

/-- Python line.split("=", 1): the part before the first '=' and the part
after it; none when the line contains no '='. -/
def splitFirstEq : List Char → Option (List Char × List Char)
  | [] => none
  | c :: rest =>
    if c = '=' then some ([], rest)
    else match splitFirstEq rest with
      | none => none
      | some (k, v) => some (c :: k, v)

/-- Split file content into lines at newline characters, as iterating
over a Python text file does (the trailing newline Python keeps on each
line is stripped away immediately afterwards, so it is dropped here). -/
def splitOnNl : List Char → List (List Char)
  | [] => [[]]
  | c :: rest =>
    if c = '\n' then [] :: splitOnNl rest
    else
      match splitOnNl rest with
      | [] => [[c]]
      | l :: ls => (c :: l) :: ls

/-- One line of load_env (config.py lines 9-15): strip, skip blank lines
and comment lines, split at the first '=', strip key and value, assign
into the env dict. -/
def processEnvLine (env : List (String × String)) (rawLine : List Char) :
    List (String × String) :=
  let line := pyStripList rawLine
  if line = [] then env
  else if line.head? = some '#' then env
  else match splitFirstEq line with
    | none => env
    | some (k, v) =>
      pyInsert env (String.mk (pyStripList k)) (String.mk (pyStripList v))

/-- load_env (config.py lines 4-20): parse the env file content as
KEY=VALUE lines; an absent file yields the empty dict.  The os.environ
setdefault pass over the result is modelled at the get_config call site. -/
def load_env (content : Option String) : List (String × String) :=
  match content with
  | none => []
  | some text => (splitOnNl text.data).foldl processEnvLine []

/-- os.environ.setdefault(k, v): append the entry only when the key is
absent. -/
def setdefault (environ : List (String × String)) (k v : String) :
    List (String × String) :=
  match dictGet environ k with
  | some _ => environ
  | none => environ ++ [(k, v)]

/-- The setdefault loop of load_env (config.py lines 18-19) applied to the
process environment. -/
def applyDefaults (environ cfg : List (String × String)) :
    List (String × String) :=
  cfg.foldl (fun e kv => setdefault e kv.1 kv.2) environ

/-- Error raised by get_config: RuntimeError("Missing required env var:
k"). -/
inductive ConfigError where
  | missingVar (name : String) : ConfigError
  deriving Repr, DecidableEq

/-- Test of config.py line 26: k not in cfg and k not in os.environ. -/
def missingKey (cfg environ : List (String × String)) (k : String) : Bool :=
  (dictGet cfg k).isNone && (dictGet environ k).isNone

/-- get_config (config.py lines 23-32): load the env file, apply its
entries to the process environment via setdefault, fail on the first of
the three required keys present in neither, otherwise build the config
from os.environ.get(k, cfg.get(k)).  The second component lists the HTTP
requests issued during the call; get_config performs no network
operation, so it is always empty.  The getD "" defaults are unreachable:
the membership check guarantees each key is present in cfg or environ. -/
def get_config (environ0 : List (String × String)) (envFile : Option String) :
    Except ConfigError Config × List Request :=
  let cfg := load_env envFile
  let environ := applyDefaults environ0 cfg
  if missingKey cfg environ "PDSHOST" then
    (.error (.missingVar "PDSHOST"), [])
  else if missingKey cfg environ "BLUESKY_HANDLE" then
    (.error (.missingVar "BLUESKY_HANDLE"), [])
  else if missingKey cfg environ "BLUESKY_PASSWORD" then
    (.error (.missingVar "BLUESKY_PASSWORD"), [])
  else
    (.ok
      { pds_host := ((dictGet environ "PDSHOST").or (dictGet cfg "PDSHOST")).getD ""
        handle := ((dictGet environ "BLUESKY_HANDLE").or (dictGet cfg "BLUESKY_HANDLE")).getD ""
        password := ((dictGet environ "BLUESKY_PASSWORD").or (dictGet cfg "BLUESKY_PASSWORD")).getD "" },
      [])

/-! ## session.py: JSON serialization (json.dump with indent=2)

The serializer below reproduces the byte-for-byte output of Python's
json.dump(sess, f, indent=2) with its defaults (ensure_ascii=True, key
separator ": ", item separator ","), restricted to the values `Json`
represents. -/

/-- Decimal digit character. -/
def digitChar : Nat → Char
  | 0 => '0'
  | 1 => '1'
  | 2 => '2'
  | 3 => '3'
  | 4 => '4'
  | 5 => '5'
  | 6 => '6'
  | 7 => '7'
  | 8 => '8'
  | 9 => '9'
  | _ => '*'

/-- Decimal digits, most significant first, with a fuel bound on the
number of divisions (any fuel at least the number itself is enough). -/
def natDigitsAux : Nat → Nat → List Char
  | _, 0 => []
  | 0, _ + 1 => []
  | fuel + 1, n + 1 => natDigitsAux fuel ((n + 1) / 10) ++ [digitChar ((n + 1) % 10)]

/-- Decimal digits of a natural number, most significant first; empty for
zero. -/
def natDigits (n : Nat) : List Char := natDigitsAux n n

/-- Python repr of a non-negative integer. -/
def serNat (n : Nat) : List Char := if n = 0 then ['0'] else natDigits n

/-- Python repr of an integer, as written by json.dump. -/
def serInt (n : Int) : List Char :=
  if n < 0 then '-' :: serNat n.natAbs else serNat n.toNat

/-- Lowercase hexadecimal digit character, as used by json.dump unicode
escapes. -/
def hexDigitLower : Nat → Char
  | 0 => '0'
  | 1 => '1'
  | 2 => '2'
  | 3 => '3'
  | 4 => '4'
  | 5 => '5'
  | 6 => '6'
  | 7 => '7'
  | 8 => '8'
  | 9 => '9'
  | 10 => 'a'
  | 11 => 'b'
  | 12 => 'c'
  | 13 => 'd'
  | 14 => 'e'
  | 15 => 'f'
  | _ => '*'

/-- Four lowercase hex digits of n < 0x10000, as in a \u escape. -/
def hex4 (n : Nat) : List Char :=
  [hexDigitLower (n / 4096 % 16), hexDigitLower (n / 256 % 16),
    hexDigitLower (n / 16 % 16), hexDigitLower (n % 16)]

/-- json.dump escaping of one character with ensure_ascii=True: the seven
short escapes, then \u escapes for other control and non-ASCII characters,
astral characters written as a surrogate pair. -/
def escapeChar (c : Char) : List Char :=
  if c = '"' then ['\\', '"']
  else if c = '\\' then ['\\', '\\']
  else if c = '\x08' then ['\\', 'b']
  else if c = '\x0c' then ['\\', 'f']
  else if c = '\n' then ['\\', 'n']
  else if c = '\x0d' then ['\\', 'r']
  else if c = '\t' then ['\\', 't']
  else if c.toNat < 0x20 then '\\' :: 'u' :: hex4 c.toNat
  else if c.toNat < 0x7f then [c]
  else if c.toNat < 0x10000 then '\\' :: 'u' :: hex4 c.toNat
  else
    '\\' :: 'u' :: hex4 (0xD800 + (c.toNat - 0x10000) / 0x400)
      ++ '\\' :: 'u' :: hex4 (0xDC00 + (c.toNat - 0x10000) % 0x400)

/-- json.dump escaping of a string body (without the surrounding
quotes). -/
def escapeString : List Char → List Char
  | [] => []
  | c :: cs => escapeChar c ++ escapeString cs

/-- Indentation written by json.dump with indent=2 at a nesting level. -/
def indentChars (level : Nat) : List Char := List.replicate (2 * level) ' '

mutual

/-- json.dump with indent=2 of one value at a nesting level. -/
def serVal (level : Nat) : Json → List Char
  | .null => "null".data
  | .bool true => "true".data
  | .bool false => "false".data
  | .num n => serInt n
  | .str s => '"' :: escapeString s.data ++ ['"']
  | .arr [] => ['[', ']']
  | .arr (x :: xs) =>
    '[' :: '\n' :: indentChars (level + 1) ++ serArrItems (level + 1) (x :: xs)
      ++ '\n' :: indentChars level ++ [']']
  | .obj [] => ['{', '}']
  | .obj (kv :: kvs) =>
    '{' :: '\n' :: indentChars (level + 1) ++ serObjItems (level + 1) (kv :: kvs)
      ++ '\n' :: indentChars level ++ ['}']

/-- Array items as written by json.dump with indent=2, separated by a
comma, newline and indentation. -/
def serArrItems (level : Nat) : List Json → List Char
  | [] => []
  | [x] => serVal level x
  | x :: y :: rest =>
    serVal level x ++ ',' :: '\n' :: indentChars level
      ++ serArrItems level (y :: rest)

/-- Object entries as written by json.dump with indent=2: quoted escaped
key, colon, space, value; entries separated by a comma, newline and
indentation. -/
def serObjItems (level : Nat) : List (String × Json) → List Char
  | [] => []
  | [(k, v)] => '"' :: escapeString k.data ++ '"' :: ':' :: ' ' :: serVal level v
  | (k, v) :: kv :: rest =>
    '"' :: escapeString k.data ++ '"' :: ':' :: ' ' :: serVal level v
      ++ ',' :: '\n' :: indentChars level ++ serObjItems level (kv :: rest)

end

/-- The exact text json.dump(sess, f, indent=2) writes (session.py line
19). -/
def dumps (v : Json) : String := String.mk (serVal 0 v)

/-! ## session.py: JSON parsing (json.load)

The parser below models Python's json.loads on the values `Json`
represents.  Deviations, both unreachable from claims proved here: number
literals with a fraction or exponent (floats) are rejected rather than
parsed, and \u escape sequences denoting lone surrogates (which Python
admits into its strings but which are not unicode scalar values, hence not
representable in a Lean string) are rejected. -/

/-- JSON whitespace skipped by the decoder: space, tab, newline, carriage
return. -/
def isJsonWs (c : Char) : Bool :=
  c = ' ' || c = '\t' || c = '\n' || c = '\x0d'

/-- Skip JSON whitespace. -/
def skipWs (cs : List Char) : List Char := cs.dropWhile isJsonWs

/-- Value of one hexadecimal digit character, either case. -/
def parseHexDigit (c : Char) : Option Nat :=
  if c.isDigit then some (c.toNat - 48)
  else if 'a' ≤ c ∧ c ≤ 'f' then some (c.toNat - 87)
  else if 'A' ≤ c ∧ c ≤ 'F' then some (c.toNat - 55)
  else none

/-- Value of a four-hex-digit escape body. -/
def parseHex4 (a b c d : Char) : Option Nat :=
  match parseHexDigit a, parseHexDigit b, parseHexDigit c, parseHexDigit d with
  | some w, some x, some y, some z => some (((w * 16 + x) * 16 + y) * 16 + z)
  | _, _, _, _ => none

/-- The single-character escapes of the JSON string grammar. -/
def unescapeChar (e : Char) : Option Char :=
  if e = '"' then some '"'
  else if e = '\\' then some '\\'
  else if e = '/' then some '/'
  else if e = 'b' then some '\x08'
  else if e = 'f' then some '\x0c'
  else if e = 'n' then some '\n'
  else if e = 'r' then some '\x0d'
  else if e = 't' then some '\t'
  else none

/-- Scalar value encoded by a high/low surrogate pair. -/
def combineSurrogates (n m : Nat) : Char :=
  Char.ofNat (0x10000 + (n - 0xD800) * 0x400 + (m - 0xDC00))

/-- Decode the decoded four hex digits of the low-surrogate escape that
must follow a high surrogate n: accept exactly the low-surrogate range
and recombine. -/
def decodeLowSurrogate2 (n : Nat) : Option Nat → List Char → Option (Char × List Char)
  | none, _ => none
  | some m, rest4 =>
    if 0xDC00 ≤ m ∧ m < 0xE000 then some (combineSurrogates n m, rest4) else none

/-- After a high surrogate n, scan the following \uXXXX escape of the low
surrogate. -/
def decodeLowSurrogate (n : Nat) : List Char → Option (Char × List Char)
  | x :: y :: a2 :: b2 :: c3 :: d2 :: rest4 =>
    if x = '\\' ∧ y = 'u' then decodeLowSurrogate2 n (parseHex4 a2 b2 c3 d2) rest4
    else none
  | _ => none

/-- Dispatch on the value of the four hex digits of a \u escape: plain
scalar values become the character, a high surrogate looks for its low
surrogate, a lone low surrogate is rejected (Python would admit it, but
it is not a unicode scalar value). -/
def decodeUEscape2 : Option Nat → List Char → Option (Char × List Char)
  | none, _ => none
  | some n, rest3 =>
    if n < 0xD800 then some (Char.ofNat n, rest3)
    else if n < 0xDC00 then decodeLowSurrogate n rest3
    else if n < 0xE000 then none
    else some (Char.ofNat n, rest3)

/-- Decode the body of one \u escape (the four hex digits and, for a high
surrogate, the following \u escape of the low surrogate, the pair
recombined into one scalar value). -/
def decodeUEscape : List Char → Option (Char × List Char)
  | a :: b :: c2 :: d :: rest3 => decodeUEscape2 (parseHex4 a b c2 d) rest3
  | _ => none

/-- String body scanner, after the opening quote: ends at an unescaped
quote, decodes escapes (surrogate pairs recombined), and rejects raw
control characters (Python strict mode).  Fuel bounds the number of
scanned units; every unit consumes at least one character, so fuel
starting above the input length never runs out. -/
def parseStringAux (fuel : Nat) (acc : List Char) (cs : List Char) :
    Option (String × List Char) :=
  match fuel, cs with
  | 0, _ => none
  | _ + 1, [] => none
  | fuel + 1, c :: rest =>
    if c = '"' then some (String.mk acc.reverse, rest)
    else if c = '\\' then
      match rest with
      | [] => none
      | e :: rest2 =>
        if e = 'u' then
          match decodeUEscape rest2 with
          | some (u, rest3) => parseStringAux fuel (u :: acc) rest3
          | none => none
        else
          match unescapeChar e with
          | some u => parseStringAux fuel (u :: acc) rest2
          | none => none
    else if c.toNat < 0x20 then none
    else parseStringAux fuel (c :: acc) rest

/-- Greedy decimal digit scan with accumulator. -/
def parseDigits (acc : Nat) : List Char → Nat × List Char
  | [] => (acc, [])
  | c :: rest =>
    if c.isDigit then parseDigits (acc * 10 + (c.toNat - 48)) rest
    else (acc, c :: rest)

/-- Finish an integer literal: reject a following fraction or exponent
(floats are outside the embedding). -/
def intResult (n : Nat) : List Char → Option (Nat × List Char)
  | [] => some (n, [])
  | c :: rest =>
    if c = '.' || c = 'e' || c = 'E' then none else some (n, c :: rest)

/-- Whether a character list starts with a decimal digit. -/
def digitHead : List Char → Bool
  | [] => false
  | c :: _ => c.isDigit

/-- Integer literal after the optional minus sign, per the JSON number
grammar: a single zero, or a nonzero digit followed by digits. -/
def parseIntTail : List Char → Option (Nat × List Char)
  | [] => none
  | c :: rest =>
    if c = '0' then
      if digitHead rest then none else intResult 0 rest
    else if c.isDigit then
      let p := parseDigits (c.toNat - 48) rest
      intResult p.1 p.2
    else none

/-- Recognize the tail of the literal null after its leading 'n'. -/
def parseLitNull : List Char → Option (Json × List Char)
  | x1 :: x2 :: x3 :: r =>
    if x1 = 'u' ∧ x2 = 'l' ∧ x3 = 'l' then some (.null, r) else none
  | _ => none

/-- Recognize the tail of the literal true after its leading 't'. -/
def parseLitTrue : List Char → Option (Json × List Char)
  | x1 :: x2 :: x3 :: r =>
    if x1 = 'r' ∧ x2 = 'u' ∧ x3 = 'e' then some (.bool true, r) else none
  | _ => none

/-- Recognize the tail of the literal false after its leading 'f'. -/
def parseLitFalse : List Char → Option (Json × List Char)
  | x1 :: x2 :: x3 :: x4 :: r =>
    if x1 = 'a' ∧ x2 = 'l' ∧ x3 = 's' ∧ x4 = 'e' then some (.bool false, r)
    else none
  | _ => none

mutual

/-- One JSON value at the head of the input (whitespace already skipped),
as scanned by Python's decoder.  The fuel argument bounds recursion depth
and never runs out when it starts at least at the input length plus
one. -/
def parseValue : Nat → List Char → Option (Json × List Char)
  | 0, _ => none
  | fuel + 1, cs =>
    match cs with
    | [] => none
    | c :: rest =>
      if c = 'n' then parseLitNull rest
      else if c = 't' then parseLitTrue rest
      else if c = 'f' then parseLitFalse rest
      else if c = '"' then
        match parseStringAux (rest.length + 1) [] rest with
        | some (s, r) => some (.str s, r)
        | none => none
      else if c = '[' then
        match skipWs rest with
        | [] => none
        | d :: r => if d = ']' then some (.arr [], r) else parseArrayItems fuel (d :: r) []
      else if c = '{' then
        match skipWs rest with
        | [] => none
        | d :: r => if d = '}' then some (.obj [], r) else parseObjectItems fuel (d :: r) []
      else if c = '-' then
        match parseIntTail rest with
        | some (n, r) => some (.num (-(n : Int)), r)
        | none => none
      else if c.isDigit then
        match parseIntTail (c :: rest) with
        | some (n, r) => some (.num (n : Int), r)
        | none => none
      else none

/-- Array items loop: value, then comma (continue) or closing bracket
(finish), whitespace skipped around separators. -/
def parseArrayItems : Nat → List Char → List Json → Option (Json × List Char)
  | 0, _, _ => none
  | fuel + 1, cs, acc =>
    match parseValue fuel cs with
    | none => none
    | some (v, rest) =>
      match skipWs rest with
      | [] => none
      | d :: r =>
        if d = ',' then parseArrayItems fuel (skipWs r) (acc ++ [v])
        else if d = ']' then some (.arr (acc ++ [v]), r)
        else none

/-- Object entries loop: quoted key, colon, value, then comma (continue)
or closing brace (finish); entries land in the dict via Python dict
assignment. -/
def parseObjectItems : Nat → List Char → List (String × Json) →
    Option (Json × List Char)
  | 0, _, _ => none
  | fuel + 1, cs, acc =>
    match cs with
    | [] => none
    | c :: rest =>
      if c = '"' then
        match parseStringAux (rest.length + 1) [] rest with
        | none => none
        | some (k, rest2) =>
          match skipWs rest2 with
          | [] => none
          | d :: r =>
            if d = ':' then
              match parseValue fuel (skipWs r) with
              | none => none
              | some (v, rest3) =>
                match skipWs rest3 with
                | [] => none
                | e :: r2 =>
                  if e = ',' then parseObjectItems fuel (skipWs r2) (pyInsert acc k v)
                  else if e = '}' then some (.obj (pyInsert acc k v), r2)
                  else none
            else none
      else none

end

/-- json.loads of a whole document: skip leading whitespace, scan one
value, require only whitespace after it.  Fuel starts above the input
length, which a scan can never exhaust. -/
def jsonParse (s : String) : Option Json :=
  match parseValue (s.length + 1) (skipWs s.data) with
  | none => none
  | some (v, rest) => if skipWs rest = [] then some v else none

/-! ## session.py: storage -/

/-- Durable storage: a map from path to file content, absent files
included. -/
def FileSystem : Type := String → Option String

/-- save_session (session.py lines 17-19): overwrite the file at path
(default "session.json" at the call sites) with json.dump(sess, f,
indent=2). -/
def save_session (sess : Json) (fs : FileSystem) (path : String) : FileSystem :=
  fun p => if p = path then some (dumps sess) else fs p

/-- Failures of load_session: FileNotFoundError from open, or
json.JSONDecodeError from json.load. -/
inductive LoadError where
  | fileNotFound : LoadError
  | jsonDecodeError : LoadError
  deriving Repr, DecidableEq

/-- load_session (session.py lines 22-24): read the file at path and parse
it as JSON; an absent file raises FileNotFoundError, unparsable content
raises json.JSONDecodeError.  Neither error is caught. -/
def load_session (fs : FileSystem) (path : String) : Except LoadError Json :=
  match fs path with
  | none => .error .fileNotFound
  | some content =>
    match jsonParse content with
    | none => .error .jsonDecodeError
    | some v => .ok v

/-! ## Well-formedness and fuel measures used by the round-trip proof -/

/-- Whether a list of keys has no duplicates (Python dicts always do). -/
def nodupKeys : List String → Bool
  | [] => true
  | k :: rest => !(rest.contains k) && nodupKeys rest

mutual

/-- Every object inside the value has pairwise distinct keys — true of
every value json.loads can produce, since Python dicts cannot hold
duplicate keys. -/
def Json.wfKeys : Json → Bool
  | .null => true
  | .bool _ => true
  | .num _ => true
  | .str _ => true
  | .arr items => wfKeysList items
  | .obj fields => nodupKeys (fields.map Prod.fst) && wfKeysObjList fields

/-- wfKeys of every element. -/
def wfKeysList : List Json → Bool
  | [] => true
  | x :: xs => Json.wfKeys x && wfKeysList xs

/-- wfKeys of every value of an object. -/
def wfKeysObjList : List (String × Json) → Bool
  | [] => true
  | kv :: rest => Json.wfKeys kv.2 && wfKeysObjList rest

end

mutual

/-- Fuel sufficient for parseValue to scan the serialized form of a
value. -/
def fuelFor : Json → Nat
  | .null => 1
  | .bool _ => 1
  | .num _ => 1
  | .str _ => 1
  | .arr items => 1 + fuelList items
  | .obj fields => 1 + fuelObjList fields

/-- Fuel sufficient for parseArrayItems over serialized items. -/
def fuelList : List Json → Nat
  | [] => 0
  | x :: xs => 1 + fuelFor x + fuelList xs

/-- Fuel sufficient for parseObjectItems over serialized entries. -/
def fuelObjList : List (String × Json) → Nat
  | [] => 0
  | kv :: rest => 1 + fuelFor kv.2 + fuelObjList rest

end

/-- A character list at which a number literal may stop: empty, or headed
by a character that neither extends the digit run nor starts a fraction or
exponent.  Every continuation the serializer places after a number (a
comma, a newline, a closing bracket or brace, or the end of input) is such
a boundary. -/
def numBoundary : List Char → Bool
  | [] => true
  | c :: _ =>
    if c.isDigit then false
    else if c = '.' then false
    else if c = 'e' then false
    else if c = 'E' then false
    else true

/-! ## Helper lemmas -/

theorem char_eq_of_toNat_eq {a b : Char} (h : a.toNat = b.toNat) : a = b :=
  Char.ext (UInt32.toNat.inj h)

theorem isDigit_toNat_bounds (c : Char) (h : c.isDigit = true) :
    48 ≤ c.toNat ∧ c.toNat ≤ 57 := by
  simp [Char.isDigit] at h
  exact ⟨h.1, h.2⟩

theorem not_mem_of_contains_eq_false {l : List String} {a : String}
    (h : l.contains a = false) : a ∉ l := by
  intro hm
  have h2 : l.elem a = true := List.elem_iff.mpr hm
  have h3 : l.contains a = true := h2
  rw [h] at h3
  cases h3

theorem char_toNat_ofNat (n : Nat) (h : n.isValidChar) :
    (Char.ofNat n).toNat = n := by
  unfold Char.ofNat
  rw [dif_pos h]
  have hlt : n < 2 ^ 32 := by
    rcases h with h | ⟨_, h2⟩ <;> omega
  simp [Char.toNat, Char.ofNatAux, UInt32.toNat, UInt32.ofNat', BitVec.toNat_ofNat,
    Nat.mod_eq_of_lt hlt]

theorem dictGet_append {α : Type} (l₁ l₂ : List (String × α)) (k : String) :
    dictGet (l₁ ++ l₂) k = (dictGet l₁ k).or (dictGet l₂ k) := by
  induction l₁ with
  | nil => simp [dictGet]
  | cons kv rest ih =>
    by_cases h : kv.1 = k
    · simp [dictGet, h]
    · simp [dictGet, h, ih]

theorem head?_dropWhile_not {α : Type} (p : α → Bool) (l : List α) (c : α)
    (h : (l.dropWhile p).head? = some c) : p c = false := by
  induction l with
  | nil => simp [List.dropWhile] at h
  | cons a rest ih =>
    rw [List.dropWhile_cons] at h
    by_cases hp : p a
    · exact ih (by simpa [hp] using h)
    · simp [hp] at h
      subst h
      simpa using hp

theorem rstripSlash_getLast?_ne (s : String) :
    (rstripSlash s).data.getLast? ≠ some '/' := by
  intro h
  rw [rstripSlash] at h
  have h2 : ((s.data.reverse.dropWhile (fun c => c = '/')).reverse).getLast? = some '/' := h
  rw [List.getLast?_reverse] at h2
  have := head?_dropWhile_not (fun c => decide (c = '/')) s.data.reverse '/' h2
  simp at this

theorem dictGet_applyDefaults_of_notin (environ cfg : List (String × String))
    (k : String) (h : dictGet cfg k = none) :
    dictGet (applyDefaults environ cfg) k = dictGet environ k := by
  induction cfg generalizing environ with
  | nil => rfl
  | cons kv rest ih =>
    have hk : ¬ kv.1 = k := by
      intro he
      simp [dictGet, he] at h
    have hrest : dictGet rest k = none := by
      simpa [dictGet, hk] using h
    show dictGet (applyDefaults (setdefault environ kv.1 kv.2) rest) k = _
    rw [ih _ hrest]
    unfold setdefault
    cases dictGet environ kv.1 with
    | some _ => rfl
    | none => simp [dictGet_append, dictGet, hk]

theorem dictGet_applyDefaults_of_in (environ cfg : List (String × String))
    (k v : String) (h : dictGet environ k = some v) :
    dictGet (applyDefaults environ cfg) k = some v := by
  induction cfg generalizing environ with
  | nil => exact h
  | cons kv rest ih =>
    show dictGet (applyDefaults (setdefault environ kv.1 kv.2) rest) k = _
    apply ih
    unfold setdefault
    cases hd : dictGet environ kv.1 with
    | some _ => exact h
    | none =>
      have hk : ¬ kv.1 = k := by
        intro he
        rw [he, h] at hd
        cases hd
      simp [dictGet_append, dictGet, hk, h]

/-! ## Claims about get_feeds.py -/

/-- C2: for every endpoint, params and config, fetch fails with the
authentication-missing error when the session record contains neither
"accessJwt" nor "jwt".  The error return models the RuntimeError raised
at get_feeds.py line 18, before urlopen is reached. -/
theorem fetch_error_when_no_token_fields (endpoint : String)
    (params : List (String × String)) (session : List (String × Json))
    (cfg : Config) (h1 : dictGet session "accessJwt" = none)
    (h2 : dictGet session "jwt" = none) :
    fetch endpoint params session cfg = .error .noAccessJwt := by
  unfold fetch
  rw [h1, h2]
  rfl

/-- Witness for C2 at the empty session record. -/
theorem fetch_error_when_no_token_fields_witness :
    dictGet ([] : List (String × Json)) "accessJwt" = none ∧
    dictGet ([] : List (String × Json)) "jwt" = none ∧
    fetch "app.bsky.feed.getTimeline" [] [] ⟨"https://example.test", "h", "p"⟩ =
      .error .noAccessJwt :=
  ⟨rfl, rfl, fetch_error_when_no_token_fields _ _ _ _ rfl rfl⟩

/-- C3: in all four query wrappers, the params passed to fetch contain no
"cursor" key when the cursor argument is None, and contain "cursor" bound
to exactly the given string when it is supplied. -/
theorem wrappers_cursor_param (limit : Int) (actor query c : String) :
    dictGet (timelineParams limit none) "cursor" = none ∧
    dictGet (timelineParams limit (some c)) "cursor" = some c ∧
    dictGet (followsParams actor limit none) "cursor" = none ∧
    dictGet (followsParams actor limit (some c)) "cursor" = some c ∧
    dictGet (authorFeedParams actor limit none) "cursor" = none ∧
    dictGet (authorFeedParams actor limit (some c)) "cursor" = some c ∧
    dictGet (searchPostsParams query limit none) "cursor" = none ∧
    dictGet (searchPostsParams query limit (some c)) "cursor" = some c := by
  refine ⟨?_, ?_, ?_, ?_, ?_, ?_, ?_, ?_⟩ <;>
    simp [timelineParams, followsParams, authorFeedParams, searchPostsParams,
      dictGet]

/-- C4: with host "https://example.test", endpoint
"app.bsky.feed.getTimeline" and params limit=5, the URL fetch constructs
is exactly "https://example.test/xrpc/app.bsky.feed.getTimeline?limit=5";
any successful fetch with these arguments issues its request at that
URL. -/
theorem fetch_url_concrete :
    buildUrl ⟨"https://example.test", "handle", "password"⟩
        "app.bsky.feed.getTimeline" [("limit", "5")] =
      "https://example.test/xrpc/app.bsky.feed.getTimeline?limit=5" ∧
    ∀ (handle password : String) (session : List (String × Json)) (r : Request),
      fetch "app.bsky.feed.getTimeline" [("limit", "5")] session
          ⟨"https://example.test", handle, password⟩ = .ok r →
      r.url = "https://example.test/xrpc/app.bsky.feed.getTimeline?limit=5" := by
  constructor
  · rfl
  · intro handle password session r h
    unfold fetch at h
    cases hp : pyOr (dictGet session "accessJwt") (dictGet session "jwt") with
    | none => rw [hp] at h; cases h
    | some t =>
      rw [hp] at h
      by_cases ht : t.truthy
      · simp only [ht, if_true] at h
        injection h with h2
        rw [← h2]
        rfl
      · simp [ht] at h

/-- Witness for C4 at a session carrying an access token. -/
theorem fetch_url_concrete_witness :
    fetch "app.bsky.feed.getTimeline" [("limit", "5")]
        [("accessJwt", Json.str "token123")]
        ⟨"https://example.test", "handle", "password"⟩ =
      .ok ⟨"https://example.test/xrpc/app.bsky.feed.getTimeline?limit=5",
        Json.str "token123"⟩ ∧
    ({ url := "https://example.test/xrpc/app.bsky.feed.getTimeline?limit=5",
       token := Json.str "token123"} : Request).url =
      "https://example.test/xrpc/app.bsky.feed.getTimeline?limit=5" :=
  ⟨rfl, fetch_url_concrete.2 "handle" "password" [("accessJwt", Json.str "token123")]
    _ rfl⟩

/-- C5: whenever the configured host ends with a slash, the URL fetch
constructs splits as a host part with no trailing slash, then "/xrpc/",
then the endpoint and query: there is no double slash immediately before
the xrpc path segment. -/
theorem url_no_double_slash_before_xrpc (cfg : Config) (endpoint : String)
    (params : List (String × String))
    (_hslash : cfg.pds_host.data.getLast? = some '/') :
    ∃ pre post : String,
      buildUrl cfg endpoint params = pre ++ "/xrpc/" ++ post ∧
      pre.data.getLast? ≠ some '/' := by
  refine ⟨rstripSlash cfg.pds_host,
    if params = [] then endpoint else endpoint ++ "?" ++ urlencode params,
    ?_, rstripSlash_getLast?_ne _⟩
  unfold buildUrl
  by_cases hp : params = []
  · rw [if_pos hp, if_pos hp]
  · rw [if_neg hp, if_neg hp]
    simp [String.append_assoc]

/-- Witness for C5 at a host with a trailing slash. -/
theorem url_no_double_slash_before_xrpc_witness :
    ("https://example.test/" : String).data.getLast? = some '/' ∧
    (∃ pre post : String,
      buildUrl ⟨"https://example.test/", "h", "p"⟩ "app.bsky.feed.getTimeline" [] =
        pre ++ "/xrpc/" ++ post ∧
      pre.data.getLast? ≠ some '/') :=
  ⟨by decide, url_no_double_slash_before_xrpc
    ⟨"https://example.test/", "h", "p"⟩ "app.bsky.feed.getTimeline" [] (by decide)⟩

/-- C6 counterexample: a config whose host itself contains a question mark
yields a URL containing a question mark even with empty params, so the
claim "the constructed URL contains no question-mark character" is false
as universally stated. -/
theorem url_qmark_counterexample :
    '?' ∈ (buildUrl ⟨"https://example.test?x=1", "h", "p"⟩
      "app.bsky.feed.getTimeline" []).data := by
  decide

/-- C6 amended: with empty params no query-string suffix is appended (the
URL is exactly the stripped host, "/xrpc/" and the endpoint), and it
contains no question mark whenever host and endpoint contain none. -/
theorem url_empty_params_no_query (cfg : Config) (endpoint : String) :
    buildUrl cfg endpoint [] = rstripSlash cfg.pds_host ++ "/xrpc/" ++ endpoint ∧
    ('?' ∉ cfg.pds_host.data → '?' ∉ endpoint.data →
      '?' ∉ (buildUrl cfg endpoint []).data) := by
  constructor
  · rfl
  · intro hhost hep hmem
    have hb : buildUrl cfg endpoint [] =
        rstripSlash cfg.pds_host ++ "/xrpc/" ++ endpoint := rfl
    rw [hb, String.data_append, String.data_append] at hmem
    rcases List.mem_append.mp hmem with hm | hm
    · rcases List.mem_append.mp hm with hm2 | hm2
      · apply hhost
        rw [rstripSlash] at hm2
        have hm3 : '?' ∈ cfg.pds_host.data.reverse.dropWhile (fun c => c = '/') :=
          List.mem_reverse.mp hm2
        have hm4 : '?' ∈ cfg.pds_host.data.reverse :=
          (List.dropWhile_sublist _).mem hm3
        exact List.mem_reverse.mp hm4
      · exact absurd hm2 (by decide)
    · exact hep hm

/-- Witness for C6 amended, at a host and endpoint free of question
marks. -/
theorem url_empty_params_no_query_witness :
    '?' ∉ ("https://example.test" : String).data ∧
    '?' ∉ ("app.bsky.feed.getTimeline" : String).data ∧
    '?' ∉ (buildUrl ⟨"https://example.test", "h", "p"⟩
      "app.bsky.feed.getTimeline" []).data :=
  ⟨by decide, by decide,
    (url_empty_params_no_query ⟨"https://example.test", "h", "p"⟩
      "app.bsky.feed.getTimeline").2 (by decide) (by decide)⟩

/-- C10: a token field that is present but empty is treated exactly like
an absent one — fetch returns the authentication error (so no request
value exists to send) when "accessJwt" is the empty string and "jwt" is
absent or empty; and whenever "accessJwt" is a non-empty string it is the
bearer token of the request issued, "jwt" being consulted only
otherwise. -/
theorem fetch_empty_token_is_absent :
    (∀ (endpoint : String) (params : List (String × String))
        (session : List (String × Json)) (cfg : Config),
      dictGet session "accessJwt" = some (.str "") →
      (dictGet session "jwt" = none ∨ dictGet session "jwt" = some (.str "")) →
      fetch endpoint params session cfg = .error .noAccessJwt) ∧
    (∀ (endpoint : String) (params : List (String × String))
        (session : List (String × Json)) (cfg : Config) (s : String),
      s ≠ "" →
      dictGet session "accessJwt" = some (.str s) →
      fetch endpoint params session cfg =
        .ok ⟨buildUrl cfg endpoint params, .str s⟩) := by
  constructor
  · intro endpoint params session cfg h1 h2
    unfold fetch pyOr
    rw [h1]
    rcases h2 with h2 | h2 <;> simp [h2, Json.truthy]
  · intro endpoint params session cfg s hs h1
    unfold fetch pyOr
    rw [h1]
    simp [Json.truthy, hs]

/-- Witness for C10: empty accessJwt with absent jwt errors; empty
accessJwt with empty jwt errors; non-empty accessJwt is used even when a
jwt field is also present. -/
theorem fetch_empty_token_is_absent_witness :
    fetch "e" [] [("accessJwt", Json.str "")] ⟨"https://example.test", "h", "p"⟩ =
      .error .noAccessJwt ∧
    fetch "e" [] [("accessJwt", Json.str ""), ("jwt", Json.str "")]
      ⟨"https://example.test", "h", "p"⟩ = .error .noAccessJwt ∧
    fetch "e" [] [("accessJwt", Json.str "primary"), ("jwt", Json.str "secondary")]
      ⟨"https://example.test", "h", "p"⟩ =
      .ok ⟨buildUrl ⟨"https://example.test", "h", "p"⟩ "e" [], Json.str "primary"⟩ :=
  ⟨fetch_empty_token_is_absent.1 "e" [] _ _ rfl (Or.inl rfl),
   fetch_empty_token_is_absent.1 "e" [] _ _ rfl (Or.inr rfl),
   fetch_empty_token_is_absent.2 "e" [] _ _ "primary" (by decide) rfl⟩

/-! ## Claims about config.py -/

/-- C8: when at least one of the three required keys is present in neither
the process environment nor the parsed env file, get_config returns a
configuration error naming a missing variable, and the list of network
requests it issued is empty. -/
theorem get_config_missing_var_error (environ : List (String × String))
    (envFile : Option String)
    (h : (dictGet environ "PDSHOST" = none ∧
            dictGet (load_env envFile) "PDSHOST" = none) ∨
         (dictGet environ "BLUESKY_HANDLE" = none ∧
            dictGet (load_env envFile) "BLUESKY_HANDLE" = none) ∨
         (dictGet environ "BLUESKY_PASSWORD" = none ∧
            dictGet (load_env envFile) "BLUESKY_PASSWORD" = none)) :
    ∃ name, get_config environ envFile = (.error (.missingVar name), []) := by
  have hmk : ∀ k, dictGet environ k = none → dictGet (load_env envFile) k = none →
      missingKey (load_env envFile) (applyDefaults environ (load_env envFile)) k = true := by
    intro k h1 h2
    unfold missingKey
    rw [dictGet_applyDefaults_of_notin _ _ _ h2, h1, h2]
    rfl
  unfold get_config
  by_cases g1 : missingKey (load_env envFile)
      (applyDefaults environ (load_env envFile)) "PDSHOST" = true
  · exact ⟨"PDSHOST", by simp [g1]⟩
  · by_cases g2 : missingKey (load_env envFile)
        (applyDefaults environ (load_env envFile)) "BLUESKY_HANDLE" = true
    · exact ⟨"BLUESKY_HANDLE", by simp [g1, g2]⟩
    · by_cases g3 : missingKey (load_env envFile)
          (applyDefaults environ (load_env envFile)) "BLUESKY_PASSWORD" = true
      · exact ⟨"BLUESKY_PASSWORD", by simp [g1, g2, g3]⟩
      · exfalso
        rcases h with ⟨h1, h2⟩ | ⟨h1, h2⟩ | ⟨h1, h2⟩
        · exact g1 (hmk _ h1 h2)
        · exact g2 (hmk _ h1 h2)
        · exact g3 (hmk _ h1 h2)

/-- Witness for C8 with an environment and env file that define nothing. -/
theorem get_config_missing_var_error_witness :
    (dictGet ([] : List (String × String)) "PDSHOST" = none ∧
      dictGet (load_env none) "PDSHOST" = none) ∧
    ∃ name, get_config [] none = (.error (.missingVar name), []) :=
  ⟨⟨rfl, rfl⟩, get_config_missing_var_error [] none (Or.inl ⟨rfl, rfl⟩)⟩

/-- C9: a key defined in the process environment keeps its environment
value in the returned config even when the env file defines it with a
different value (environment values take precedence), for each of the
three config keys. -/
theorem get_config_env_precedence :
    (∀ (environ : List (String × String)) (envFile : Option String)
        (v w : String) (c : Config) (reqs : List Request),
      dictGet environ "PDSHOST" = some v →
      dictGet (load_env envFile) "PDSHOST" = some w → v ≠ w →
      get_config environ envFile = (.ok c, reqs) → c.pds_host = v) ∧
    (∀ (environ : List (String × String)) (envFile : Option String)
        (v w : String) (c : Config) (reqs : List Request),
      dictGet environ "BLUESKY_HANDLE" = some v →
      dictGet (load_env envFile) "BLUESKY_HANDLE" = some w → v ≠ w →
      get_config environ envFile = (.ok c, reqs) → c.handle = v) ∧
    (∀ (environ : List (String × String)) (envFile : Option String)
        (v w : String) (c : Config) (reqs : List Request),
      dictGet environ "BLUESKY_PASSWORD" = some v →
      dictGet (load_env envFile) "BLUESKY_PASSWORD" = some w → v ≠ w →
      get_config environ envFile = (.ok c, reqs) → c.password = v) := by
  refine ⟨?_, ?_, ?_⟩ <;>
  · intro environ envFile v w c reqs hv hw hne h
    have hpres := dictGet_applyDefaults_of_in environ (load_env envFile) _ v hv
    simp only [get_config] at h
    split_ifs at h with g1 g2 g3
    · simp at h
    · simp at h
    · simp at h
    · rw [Prod.mk.injEq] at h
      cases h.1
      simp [hpres]

/-- Witness for C9: PDSHOST set to different values in the environment and
the env file; the config uses the environment value. -/
theorem get_config_env_precedence_witness :
    dictGet [("PDSHOST", "https://env.example"), ("BLUESKY_HANDLE", "h"),
        ("BLUESKY_PASSWORD", "p")] "PDSHOST" = some "https://env.example" ∧
    dictGet (load_env (some "PDSHOST=https://file.example")) "PDSHOST" =
      some "https://file.example" ∧
    "https://env.example" ≠ "https://file.example" ∧
    get_config [("PDSHOST", "https://env.example"), ("BLUESKY_HANDLE", "h"),
        ("BLUESKY_PASSWORD", "p")] (some "PDSHOST=https://file.example") =
      (.ok ⟨"https://env.example", "h", "p"⟩, []) ∧
    (⟨"https://env.example", "h", "p"⟩ : Config).pds_host = "https://env.example" :=
  ⟨rfl, rfl, by decide, rfl,
    get_config_env_precedence.1
      [("PDSHOST", "https://env.example"), ("BLUESKY_HANDLE", "h"),
        ("BLUESKY_PASSWORD", "p")]
      (some "PDSHOST=https://file.example") "https://env.example"
      "https://file.example" ⟨"https://env.example", "h", "p"⟩ [] rfl rfl
      (by decide) rfl⟩

/-! ## Round-trip machinery: numbers -/

theorem natDigitsAux_fuel (f1 : Nat) : ∀ (f2 n : Nat), n ≤ f1 → n ≤ f2 →
    natDigitsAux f1 n = natDigitsAux f2 n := by
  induction f1 with
  | zero =>
    intro f2 n h1 _
    interval_cases n
    cases f2 <;> rfl
  | succ f ih =>
    intro f2 n h1 h2
    cases n with
    | zero => cases f2 <;> rfl
    | succ m =>
      cases f2 with
      | zero => omega
      | succ f2' =>
        show natDigitsAux f ((m + 1) / 10) ++ _ = natDigitsAux f2' ((m + 1) / 10) ++ _
        rw [ih f2' ((m + 1) / 10) (by omega) (by omega)]

theorem natDigits_succ (n : Nat) :
    natDigits (n + 1) = natDigits ((n + 1) / 10) ++ [digitChar ((n + 1) % 10)] := by
  show natDigitsAux (n + 1) (n + 1) = natDigitsAux ((n + 1) / 10) ((n + 1) / 10) ++ _
  show natDigitsAux n ((n + 1) / 10) ++ _ = _
  rw [natDigitsAux_fuel n ((n + 1) / 10) ((n + 1) / 10) (by omega) le_rfl]

theorem digitChar_isDigit (m : Nat) (h : m < 10) : (digitChar m).isDigit = true := by
  interval_cases m <;> decide

theorem digitChar_toNat (m : Nat) (h : m < 10) : (digitChar m).toNat = 48 + m := by
  interval_cases m <;> rfl

theorem digitChar_ne_zero (m : Nat) (h1 : 0 < m) (h2 : m < 10) :
    digitChar m ≠ '0' := by
  interval_cases m <;> decide

theorem natDigits_all_digit (n : Nat) : ∀ c ∈ natDigits n, c.isDigit = true := by
  induction n using Nat.strong_induction_on with
  | _ n ih =>
    cases n with
    | zero => intro c hc; cases hc
    | succ m =>
      rw [natDigits_succ]
      intro c hc
      rcases List.mem_append.mp hc with hm | hm
      · exact ih ((m + 1) / 10) (by omega) c hm
      · rw [List.mem_singleton.mp hm]
        exact digitChar_isDigit _ (by omega)

theorem natDigits_head_nonzero (n : Nat) (h : 0 < n) :
    ∃ d ds, natDigits n = d :: ds ∧ d.isDigit = true ∧ d ≠ '0' := by
  induction n using Nat.strong_induction_on with
  | _ n ih =>
    cases n with
    | zero => omega
    | succ m =>
      rw [natDigits_succ]
      by_cases h10 : (m + 1) / 10 = 0
      · rw [h10]
        refine ⟨digitChar ((m + 1) % 10), [], rfl, digitChar_isDigit _ (by omega), ?_⟩
        exact digitChar_ne_zero _ (by omega) (by omega)
      · obtain ⟨d, ds, heq, hd, hne⟩ := ih ((m + 1) / 10) (by omega) (by omega)
        exact ⟨d, ds ++ [digitChar ((m + 1) % 10)], by rw [heq]; rfl, hd, hne⟩

theorem foldl_natDigits (n : Nat) : ∀ acc : Nat,
    (natDigits n).foldl (fun a c => a * 10 + (c.toNat - 48)) acc =
      acc * 10 ^ (natDigits n).length + n := by
  induction n using Nat.strong_induction_on with
  | _ n ih =>
    intro acc
    cases n with
    | zero => simp [natDigits, natDigitsAux]
    | succ m =>
      rw [natDigits_succ, List.foldl_append, ih ((m + 1) / 10) (by omega)]
      simp only [List.foldl_cons, List.foldl_nil, List.length_append,
        List.length_singleton, pow_succ]
      rw [digitChar_toNat _ (by omega), ← mul_assoc]
      have harith : 48 + (m + 1) % 10 - 48 = (m + 1) % 10 := by omega
      rw [harith]
      set B := acc * 10 ^ (natDigits ((m + 1) / 10)).length with hB
      omega

theorem parseDigits_append (ds : List Char) (hds : ∀ c ∈ ds, c.isDigit = true) :
    ∀ (acc : Nat) (rest : List Char), digitHead rest = false →
    parseDigits acc (ds ++ rest) =
      (ds.foldl (fun a c => a * 10 + (c.toNat - 48)) acc, rest) := by
  induction ds with
  | nil =>
    intro acc rest hr
    cases rest with
    | nil => rfl
    | cons c r =>
      have hc : c.isDigit = false := by simpa [digitHead] using hr
      simp [parseDigits, hc]
  | cons d ds ih =>
    intro acc rest hr
    have hd : d.isDigit = true := hds d (List.mem_cons_self d ds)
    show parseDigits acc (d :: (ds ++ rest)) = _
    rw [parseDigits, if_pos hd, ih (fun c hc => hds c (List.mem_cons_of_mem d hc)) _ rest hr]
    rfl

theorem serNat_head (n : Nat) :
    ∃ d ds, serNat n = d :: ds ∧ d.isDigit = true := by
  by_cases h : n = 0
  · exact ⟨'0', [], by simp [serNat, h], by decide⟩
  · obtain ⟨d, ds, heq, hd, _⟩ := natDigits_head_nonzero n (by omega)
    exact ⟨d, ds, by simp [serNat, h, heq], hd⟩

theorem numBoundary_head (c : Char) (r : List Char)
    (h : numBoundary (c :: r) = true) :
    c.isDigit = false ∧ c ≠ '.' ∧ c ≠ 'e' ∧ c ≠ 'E' := by
  have h2 : numBoundary (c :: r) =
      (if c.isDigit then false
       else if c = '.' then false
       else if c = 'e' then false
       else if c = 'E' then false
       else true) := rfl
  rw [h2] at h
  split_ifs at h with h1 h3 h4 h5
  exact ⟨by simpa using h1, h3, h4, h5⟩

theorem numBoundary_digitHead (rest : List Char) (h : numBoundary rest = true) :
    digitHead rest = false := by
  cases rest with
  | nil => rfl
  | cons c r =>
    obtain ⟨h1, _, _, _⟩ := numBoundary_head c r h
    simp [digitHead, h1]

theorem intResult_of_numBoundary (n : Nat) (rest : List Char)
    (h : numBoundary rest = true) : intResult n rest = some (n, rest) := by
  cases rest with
  | nil => rfl
  | cons c r =>
    obtain ⟨_, h2, h3, h4⟩ := numBoundary_head c r h
    simp [intResult, h2, h3, h4]

theorem parseIntTail_serNat (n : Nat) (rest : List Char)
    (hrest : numBoundary rest = true) :
    parseIntTail (serNat n ++ rest) = some (n, rest) := by
  by_cases h0 : n = 0
  · subst h0
    show parseIntTail ('0' :: rest) = some (0, rest)
    rw [parseIntTail, if_pos rfl, numBoundary_digitHead rest hrest]
    simpa using intResult_of_numBoundary 0 rest hrest
  · obtain ⟨d, ds, heq, hdig, hne⟩ := natDigits_head_nonzero n (by omega)
    have hser : serNat n = d :: ds := by simp [serNat, h0, heq]
    rw [hser]
    show parseIntTail (d :: (ds ++ rest)) = some (n, rest)
    rw [parseIntTail, if_neg hne, if_pos hdig]
    have hdsdig : ∀ c ∈ ds, c.isDigit = true := by
      intro c hc
      exact natDigits_all_digit n c (by rw [heq]; exact List.mem_cons_of_mem d hc)
    rw [parseDigits_append ds hdsdig _ rest (numBoundary_digitHead rest hrest)]
    have hval : ds.foldl (fun a c => a * 10 + (c.toNat - 48)) (d.toNat - 48) = n := by
      have h1 : (natDigits n).foldl (fun a c => a * 10 + (c.toNat - 48)) 0 = n := by
        simpa using foldl_natDigits n 0
      rw [heq, List.foldl_cons] at h1
      simpa using h1
    simp only []
    rw [hval]
    exact intResult_of_numBoundary n rest hrest

/-! ## Round-trip machinery: hex and string escapes -/

theorem parseHexDigit_hexDigitLower (m : Nat) (h : m < 16) :
    parseHexDigit (hexDigitLower m) = some m := by
  interval_cases m <;> decide

theorem parseHex4_hex4_val (m : Nat) (h : m < 65536) :
    parseHex4 (hexDigitLower (m / 4096 % 16)) (hexDigitLower (m / 256 % 16))
      (hexDigitLower (m / 16 % 16)) (hexDigitLower (m % 16)) = some m := by
  rw [parseHex4, parseHexDigit_hexDigitLower _ (by omega),
    parseHexDigit_hexDigitLower _ (by omega),
    parseHexDigit_hexDigitLower _ (by omega),
    parseHexDigit_hexDigitLower _ (by omega)]
  show some _ = some m
  congr 1
  omega

theorem char_valid_ranges (c : Char) :
    c.toNat < 0xD800 ∨ (0xDFFF < c.toNat ∧ c.toNat < 0x110000) := by
  have h := c.valid
  rcases h with h | ⟨h1, h2⟩
  · exact Or.inl h
  · exact Or.inr ⟨h1, h2⟩

theorem decodeUEscape_bmp (n : Nat)
    (h : n < 0xD800 ∨ (0xDFFF < n ∧ n < 0x10000)) (tail : List Char) :
    decodeUEscape (hex4 n ++ tail) = some (Char.ofNat n, tail) := by
  have hlt : n < 65536 := by rcases h with h | ⟨_, h2⟩ <;> omega
  have hp := parseHex4_hex4_val n hlt
  show decodeUEscape (hexDigitLower (n / 4096 % 16) :: hexDigitLower (n / 256 % 16)
    :: hexDigitLower (n / 16 % 16) :: hexDigitLower (n % 16) :: tail) = _
  rw [decodeUEscape.eq_1, hp]
  show decodeUEscape2 (some n) tail = _
  rw [decodeUEscape2.eq_2]
  rcases h with h | ⟨hh1, hh2⟩
  · rw [if_pos h]
  · rw [if_neg (by omega), if_neg (by omega), if_neg (by omega)]

theorem decodeUEscape_pair (u : Nat) (h1 : 0x10000 ≤ u) (h2 : u < 0x110000)
    (tail : List Char) :
    decodeUEscape (hex4 (0xD800 + (u - 0x10000) / 0x400)
      ++ '\\' :: 'u' :: (hex4 (0xDC00 + (u - 0x10000) % 0x400) ++ tail)) =
      some (Char.ofNat u, tail) := by
  have hhi : 0xD800 + (u - 0x10000) / 0x400 < 65536 := by omega
  have hlo : 0xDC00 + (u - 0x10000) % 0x400 < 65536 := by omega
  have hphi := parseHex4_hex4_val (0xD800 + (u - 0x10000) / 0x400) hhi
  have hplo := parseHex4_hex4_val (0xDC00 + (u - 0x10000) % 0x400) hlo
  show decodeUEscape (hexDigitLower _ :: hexDigitLower _ :: hexDigitLower _
    :: hexDigitLower _ :: '\\' :: 'u' :: (hexDigitLower _ :: hexDigitLower _
    :: hexDigitLower _ :: hexDigitLower _ :: tail)) = _
  rw [decodeUEscape.eq_1, hphi]
  show decodeUEscape2 (some _) _ = _
  rw [decodeUEscape2.eq_2]
  rw [if_neg (by omega), if_pos (by omega)]
  rw [decodeLowSurrogate.eq_1, if_pos ⟨rfl, rfl⟩, hplo]
  show decodeLowSurrogate2 _ (some _) tail = _
  rw [decodeLowSurrogate2.eq_2, if_pos (by omega)]
  have harg : combineSurrogates (0xD800 + (u - 0x10000) / 0x400)
      (0xDC00 + (u - 0x10000) % 0x400) = Char.ofNat u := by
    unfold combineSurrogates
    exact congrArg Char.ofNat (by omega)
  rw [harg]

theorem parseStringAux_step (c : Char) (f : Nat) (acc tail : List Char) :
    parseStringAux (f + 1) acc (escapeChar c ++ tail) =
      parseStringAux f (c :: acc) tail := by
  by_cases h1 : c = '"'
  · subst h1
    simp [escapeChar, parseStringAux, unescapeChar]
  · by_cases h2 : c = '\\'
    · subst h2
      simp [escapeChar, parseStringAux, unescapeChar]
    · by_cases h3 : c = '\x08'
      · subst h3
        simp [escapeChar, parseStringAux, unescapeChar]
      · by_cases h4 : c = '\x0c'
        · subst h4
          simp [escapeChar, parseStringAux, unescapeChar]
        · by_cases h5 : c = '\n'
          · subst h5
            simp [escapeChar, parseStringAux, unescapeChar]
          · by_cases h6 : c = '\x0d'
            · subst h6
              simp [escapeChar, parseStringAux, unescapeChar]
            · by_cases h7 : c = '\t'
              · subst h7
                simp [escapeChar, parseStringAux, unescapeChar]
              · by_cases h8 : c.toNat < 0x20
                · have hesc : escapeChar c = '\\' :: 'u' :: hex4 c.toNat := by
                    simp [escapeChar, h1, h2, h3, h4, h5, h6, h7, h8]
                  rw [hesc]
                  show parseStringAux (f + 1) acc
                    ('\\' :: 'u' :: (hex4 c.toNat ++ tail)) = _
                  simp only [parseStringAux]
                  rw [if_pos trivial, if_pos trivial,
                    decodeUEscape_bmp c.toNat (Or.inl (by omega)) tail]
                  show parseStringAux f (Char.ofNat c.toNat :: acc) tail = _
                  rw [Char.ofNat_toNat]
                · by_cases h9 : c.toNat < 0x7f
                  · have hesc : escapeChar c = [c] := by
                      simp [escapeChar, h1, h2, h3, h4, h5, h6, h7, h8, h9]
                    rw [hesc]
                    show parseStringAux (f + 1) acc (c :: tail) = _
                    simp only [parseStringAux]
                    rw [if_neg h1, if_neg h2, if_neg h8]
                  · by_cases h10 : c.toNat < 0x10000
                    · have hesc : escapeChar c = '\\' :: 'u' :: hex4 c.toNat := by
                        simp [escapeChar, h1, h2, h3, h4, h5, h6, h7, h8, h9, h10]
                      rw [hesc]
                      show parseStringAux (f + 1) acc
                        ('\\' :: 'u' :: (hex4 c.toNat ++ tail)) = _
                      have hrange : c.toNat < 0xD800 ∨
                          (0xDFFF < c.toNat ∧ c.toNat < 0x10000) := by
                        rcases char_valid_ranges c with h | ⟨ha, _⟩
                        · exact Or.inl h
                        · exact Or.inr ⟨ha, h10⟩
                      simp only [parseStringAux]
                      rw [if_pos trivial, if_pos trivial,
                        decodeUEscape_bmp c.toNat hrange tail]
                      show parseStringAux f (Char.ofNat c.toNat :: acc) tail = _
                      rw [Char.ofNat_toNat]
                    · have hesc : escapeChar c =
                          '\\' :: 'u' :: (hex4 (0xD800 + (c.toNat - 0x10000) / 0x400)
                            ++ '\\' :: 'u' :: hex4 (0xDC00 + (c.toNat - 0x10000) % 0x400)) := by
                        simp [escapeChar, h1, h2, h3, h4, h5, h6, h7, h8, h9, h10]
                      rw [hesc]
                      have hlt : c.toNat < 0x110000 := by
                        rcases char_valid_ranges c with h | ⟨_, hb⟩
                        · omega
                        · exact hb
                      show parseStringAux (f + 1) acc
                        ('\\' :: 'u' :: ((hex4 (0xD800 + (c.toNat - 0x10000) / 0x400)
                          ++ '\\' :: 'u' :: hex4 (0xDC00 + (c.toNat - 0x10000) % 0x400)) ++ tail)) = _
                      rw [List.append_assoc]
                      show parseStringAux (f + 1) acc
                        ('\\' :: 'u' :: (hex4 (0xD800 + (c.toNat - 0x10000) / 0x400)
                          ++ ('\\' :: 'u' :: (hex4 (0xDC00 + (c.toNat - 0x10000) % 0x400) ++ tail)))) = _
                      rw [parseStringAux.eq_4, if_neg (by decide), if_pos rfl,
                        if_pos rfl, decodeUEscape_pair c.toNat (by omega) hlt tail]
                      show parseStringAux f (Char.ofNat c.toNat :: acc) tail = _
                      rw [Char.ofNat_toNat]

theorem parseStringAux_escape (s : List Char) : ∀ (f : Nat) (acc rest : List Char),
    s.length < f →
    parseStringAux f acc (escapeString s ++ '"' :: rest) =
      some (String.mk (acc.reverse ++ s), rest) := by
  induction s with
  | nil =>
    intro f acc rest hf
    cases f with
    | zero => omega
    | succ f' => simp [escapeString, parseStringAux]
  | cons c cs ih =>
    intro f acc rest hf
    cases f with
    | zero => omega
    | succ f' =>
      show parseStringAux (f' + 1) acc
        ((escapeChar c ++ escapeString cs) ++ '"' :: rest) = _
      rw [List.append_assoc, parseStringAux_step,
        ih f' (c :: acc) rest (by simpa using Nat.lt_of_succ_lt_succ hf)]
      simp

/-! ## Round-trip machinery: whitespace, heads and keys -/

theorem string_mk_data (s : String) : String.mk s.data = s := rfl

theorem skipWs_cons_of_ws (c : Char) (cs : List Char) (h : isJsonWs c = true) :
    skipWs (c :: cs) = skipWs cs := by
  simp [skipWs, List.dropWhile_cons, h]

theorem skipWs_cons_of_not_ws (c : Char) (cs : List Char) (h : isJsonWs c = false) :
    skipWs (c :: cs) = c :: cs := by
  simp [skipWs, List.dropWhile_cons, h]

theorem skipWs_replicate (n : Nat) (cs : List Char) :
    skipWs (List.replicate n ' ' ++ cs) = skipWs cs := by
  induction n with
  | zero => rfl
  | succ k ih =>
    rw [List.replicate_succ, List.cons_append, skipWs_cons_of_ws _ _ (by decide)]
    exact ih

theorem skipWs_newline_indent (lvl : Nat) (cs : List Char) :
    skipWs ('\n' :: (indentChars lvl ++ cs)) = skipWs cs := by
  rw [skipWs_cons_of_ws _ _ (by decide)]
  exact skipWs_replicate (2 * lvl) cs

theorem isJsonWs_cases (c : Char) (h : isJsonWs c = true) :
    c = ' ' ∨ c = '\t' ∨ c = '\n' ∨ c = '\x0d' := by
  simp [isJsonWs] at h
  tauto

theorem numBoundary_of_skipWs (tail rest : List Char) (c : Char)
    (h : skipWs tail = c :: rest) (hdig : c.isDigit = false) (hdot : c ≠ '.')
    (he : c ≠ 'e') (hE : c ≠ 'E') : numBoundary tail = true := by
  cases tail with
  | nil => rfl
  | cons t ts =>
    by_cases hw : isJsonWs t = true
    · rcases isJsonWs_cases t hw with h1 | h1 | h1 | h1 <;> subst h1 <;> rfl
    · rw [skipWs_cons_of_not_ws _ _ (by simpa using hw)] at h
      injection h with h2 _
      rw [← h2] at hdig hdot he hE
      show (if t.isDigit then false
        else if t = '.' then false
        else if t = 'e' then false
        else if t = 'E' then false
        else true) = true
      rw [hdig]
      rw [if_neg (by simp), if_neg hdot, if_neg he, if_neg hE]

theorem digit_not_special (d : Char) (h : d.isDigit = true) :
    isJsonWs d = false ∧ d ≠ ']' := by
  constructor
  · have h1 : d ≠ ' ' := by intro he; subst he; exact absurd h (by decide)
    have h2 : d ≠ '\t' := by intro he; subst he; exact absurd h (by decide)
    have h3 : d ≠ '\n' := by intro he; subst he; exact absurd h (by decide)
    have h4 : d ≠ '\x0d' := by intro he; subst he; exact absurd h (by decide)
    simp [isJsonWs, h1, h2, h3, h4]
  · intro he
    subst he
    exact absurd h (by decide)

theorem isDigit_ne_keywords (d : Char) (h : d.isDigit = true) :
    d ≠ 'n' ∧ d ≠ 't' ∧ d ≠ 'f' ∧ d ≠ '"' ∧ d ≠ '[' ∧ d ≠ '{' ∧ d ≠ '-' := by
  refine ⟨?_, ?_, ?_, ?_, ?_, ?_, ?_⟩ <;>
    exact fun he => by subst he; exact absurd h (by decide)

theorem serVal_head_facts (lvl : Nat) (v : Json) :
    ∃ c cs, serVal lvl v = c :: cs ∧ isJsonWs c = false ∧ c ≠ ']' := by
  cases v with
  | null => exact ⟨'n', _, rfl, by decide, by decide⟩
  | bool b => cases b with
    | true => exact ⟨'t', _, rfl, by decide, by decide⟩
    | false => exact ⟨'f', _, rfl, by decide, by decide⟩
  | num n =>
    by_cases hn : n < 0
    · refine ⟨'-', serNat n.natAbs, ?_, by decide, by decide⟩
      show serInt n = _
      simp [serInt, hn]
    · obtain ⟨d, ds, hser, hdig⟩ := serNat_head n.toNat
      obtain ⟨hw, hne⟩ := digit_not_special d hdig
      refine ⟨d, ds, ?_, hw, hne⟩
      show serInt n = _
      simp [serInt, hn, hser]
  | str s => exact ⟨'"', _, rfl, by decide, by decide⟩
  | arr items => cases items with
    | nil => exact ⟨'[', _, rfl, by decide, by decide⟩
    | cons x xs => exact ⟨'[', _, rfl, by decide, by decide⟩
  | obj fields => cases fields with
    | nil => exact ⟨'{', _, rfl, by decide, by decide⟩
    | cons kv kvs => exact ⟨'{', _, rfl, by decide, by decide⟩

theorem serArrItems_head (lvl : Nat) (x : Json) (xs : List Json) :
    ∃ c cs, serArrItems lvl (x :: xs) = c :: cs ∧ isJsonWs c = false ∧ c ≠ ']' := by
  obtain ⟨c, cs, hser, hw, hne⟩ := serVal_head_facts lvl x
  cases xs with
  | nil => exact ⟨c, cs, hser, hw, hne⟩
  | cons y ys =>
    refine ⟨c, cs ++ ',' :: '\n' :: indentChars lvl ++ serArrItems lvl (y :: ys),
      ?_, hw, hne⟩
    show serVal lvl x ++ ',' :: '\n' :: indentChars lvl ++ serArrItems lvl (y :: ys) = _
    rw [hser]
    simp [List.cons_append, List.append_assoc]

set_option maxHeartbeats 1000000 in
theorem escapeChar_length_pos (c : Char) : 1 ≤ (escapeChar c).length := by
  unfold escapeChar
  split_ifs <;> simp [hex4]

theorem escapeString_length_ge (s : List Char) :
    s.length ≤ (escapeString s).length := by
  induction s with
  | nil => simp [escapeString]
  | cons c cs ih =>
    show (c :: cs).length ≤ (escapeChar c ++ escapeString cs).length
    rw [List.length_append, List.length_cons]
    have := escapeChar_length_pos c
    omega

theorem pyInsert_fresh (l : List (String × Json)) (k : String) (v : Json)
    (h : k ∉ l.map Prod.fst) : pyInsert l k v = l ++ [(k, v)] := by
  induction l with
  | nil => rfl
  | cons kv rest ih =>
    have hne : ¬ kv.1 = k := by
      intro he
      exact h (by simp [he])
    show pyInsert (kv :: rest) k v = _
    obtain ⟨a, b⟩ := kv
    show (if a = k then (a, v) :: rest else (a, b) :: pyInsert rest k v) = _
    rw [if_neg (by simpa using hne), ih (by intro hm; exact h (by simp [hm]))]
    rfl

theorem fuelFor_pos (v : Json) : 1 ≤ fuelFor v := by
  cases v <;> simp [fuelFor]

theorem skipWs_serVal_append (lvl : Nat) (v : Json) (tail : List Char) :
    skipWs (serVal lvl v ++ tail) = serVal lvl v ++ tail := by
  obtain ⟨c, cs, hser, hw, _⟩ := serVal_head_facts lvl v
  rw [hser, List.cons_append, skipWs_cons_of_not_ws _ _ hw]

/-! ## The round trip: parsing a serialized value recovers it -/

mutual

/-- Scanning the serialized form of a value (with any trailing input at a
number boundary) yields exactly that value, provided the fuel covers the
value and every object inside has distinct keys. -/
theorem parse_serVal (v : Json) (hwf : v.wfKeys = true) :
    ∀ (fuel lvl : Nat) (rest : List Char), fuelFor v ≤ fuel →
      numBoundary rest = true →
      parseValue fuel (serVal lvl v ++ rest) = some (v, rest) := by
  intro fuel lvl rest hfuel hnb
  cases fuel with
  | zero => exact absurd (Nat.le_trans (fuelFor_pos v) hfuel) (by omega)
  | succ f =>
    cases v with
    | null =>
      show parseValue (f + 1) ('n' :: 'u' :: 'l' :: 'l' :: rest) = _
      rw [parseValue.eq_3, if_pos rfl]
      show parseLitNull ('u' :: 'l' :: 'l' :: rest) = _
      rw [parseLitNull.eq_1, if_pos ⟨rfl, rfl, rfl⟩]
    | bool b =>
      cases b with
      | true =>
        show parseValue (f + 1) ('t' :: 'r' :: 'u' :: 'e' :: rest) = _
        rw [parseValue.eq_3, if_neg (by decide), if_pos rfl]
        show parseLitTrue ('r' :: 'u' :: 'e' :: rest) = _
        rw [parseLitTrue.eq_1, if_pos ⟨rfl, rfl, rfl⟩]
      | false =>
        show parseValue (f + 1) ('f' :: 'a' :: 'l' :: 's' :: 'e' :: rest) = _
        rw [parseValue.eq_3, if_neg (by decide), if_neg (by decide), if_pos rfl]
        show parseLitFalse ('a' :: 'l' :: 's' :: 'e' :: rest) = _
        rw [parseLitFalse.eq_1, if_pos ⟨rfl, rfl, rfl, rfl⟩]
    | num n =>
      by_cases hn : n < 0
      · have hser : serVal lvl (.num n) = '-' :: serNat n.natAbs := by
          show serInt n = _
          simp [serInt, hn]
        rw [hser, List.cons_append, parseValue.eq_3, if_neg (by decide),
          if_neg (by decide), if_neg (by decide), if_neg (by decide),
          if_neg (by decide), if_neg (by decide), if_pos rfl,
          parseIntTail_serNat n.natAbs rest hnb]
        show some (Json.num (-(n.natAbs : Int)), rest) = _
        have harg : (-(n.natAbs : Int)) = n := by omega
        rw [harg]
      · obtain ⟨d, ds, hserd, hdig⟩ := serNat_head n.toNat
        obtain ⟨hd1, hd2, hd3, hd4, hd5, hd6, hd7⟩ := isDigit_ne_keywords d hdig
        have hser : serVal lvl (.num n) = d :: ds := by
          show serInt n = _
          simp [serInt, hn, hserd]
        rw [hser, List.cons_append, parseValue.eq_3, if_neg hd1, if_neg hd2,
          if_neg hd3, if_neg hd4, if_neg hd5, if_neg hd6, if_neg hd7,
          if_pos hdig]
        have hcons : d :: (ds ++ rest) = serNat n.toNat ++ rest := by
          rw [hserd]
          rfl
        rw [hcons, parseIntTail_serNat n.toNat rest hnb]
        show some (Json.num ((n.toNat : Int)), rest) = _
        have harg : ((n.toNat : Int)) = n := by omega
        rw [harg]
    | str s =>
      have hser : serVal lvl (.str s) ++ rest =
          '"' :: (escapeString s.data ++ ('"' :: rest)) := by
        show ('"' :: escapeString s.data ++ ['"']) ++ rest = _
        simp [List.cons_append, List.append_assoc]
      rw [hser, parseValue.eq_3, if_neg (by decide), if_neg (by decide),
        if_neg (by decide), if_pos rfl]
      have hfuel2 : (s.data).length <
          (escapeString s.data ++ ('"' :: rest)).length + 1 := by
        have := escapeString_length_ge s.data
        rw [List.length_append]
        omega
      rw [parseStringAux_escape s.data _ [] rest hfuel2]
      show some (Json.str (String.mk (List.reverse [] ++ s.data)), rest) = _
      simp [string_mk_data]
    | arr items =>
      cases items with
      | nil =>
        show parseValue (f + 1) ('[' :: (']' :: rest)) = _
        rw [parseValue.eq_3, if_neg (by decide), if_neg (by decide),
          if_neg (by decide), if_neg (by decide), if_pos rfl,
          skipWs_cons_of_not_ws _ _ (by decide)]
        show (if ']' = ']' then some (Json.arr [], rest)
          else parseArrayItems f (']' :: rest) []) = _
        rw [if_pos rfl]
      | cons x xs =>
        have hwf2 : wfKeysList (x :: xs) = true := by
          simpa [Json.wfKeys] using hwf
        have hfl : fuelList (x :: xs) ≤ f := by
          have he : fuelFor (.arr (x :: xs)) = 1 + fuelList (x :: xs) := rfl
          omega
        have hflat : serVal lvl (.arr (x :: xs)) ++ rest =
            '[' :: ('\n' :: (indentChars (lvl + 1) ++ (serArrItems (lvl + 1) (x :: xs)
              ++ ('\n' :: (indentChars lvl ++ (']' :: rest)))))) := by
          show ('[' :: '\n' :: indentChars (lvl + 1) ++ serArrItems (lvl + 1) (x :: xs)
            ++ '\n' :: indentChars lvl ++ [']']) ++ rest = _
          simp [List.cons_append, List.append_assoc]
        rw [hflat, parseValue.eq_3, if_neg (by decide), if_neg (by decide),
          if_neg (by decide), if_neg (by decide), if_pos rfl,
          skipWs_newline_indent]
        obtain ⟨c0, cs0, hitems, hw0, hne0⟩ := serArrItems_head (lvl + 1) x xs
        have hc : serArrItems (lvl + 1) (x :: xs)
            ++ ('\n' :: (indentChars lvl ++ (']' :: rest)))
            = c0 :: (cs0 ++ ('\n' :: (indentChars lvl ++ (']' :: rest)))) := by
          rw [hitems]
          rfl
        rw [hc, skipWs_cons_of_not_ws _ _ hw0]
        show (if c0 = ']' then some (Json.arr [],
            cs0 ++ ('\n' :: (indentChars lvl ++ (']' :: rest))))
          else parseArrayItems f
            (c0 :: (cs0 ++ ('\n' :: (indentChars lvl ++ (']' :: rest))))) []) = _
        rw [if_neg hne0, ← hc]
        exact parse_serArr (x :: xs) (by simp) hwf2 f (lvl + 1) [] _ rest
          (by rw [skipWs_newline_indent, skipWs_cons_of_not_ws _ _ (by decide)]) hfl
    | obj fields =>
      cases fields with
      | nil =>
        show parseValue (f + 1) ('{' :: ('}' :: rest)) = _
        rw [parseValue.eq_3, if_neg (by decide), if_neg (by decide),
          if_neg (by decide), if_neg (by decide), if_neg (by decide), if_pos rfl,
          skipWs_cons_of_not_ws _ _ (by decide)]
        show (if '}' = '}' then some (Json.obj [], rest)
          else parseObjectItems f ('}' :: rest) []) = _
        rw [if_pos rfl]
      | cons kv kvs =>
        obtain ⟨hnd, hwf2⟩ : nodupKeys ((kv :: kvs).map Prod.fst) = true ∧
            wfKeysObjList (kv :: kvs) = true := by
          simpa [Json.wfKeys, Bool.and_eq_true] using hwf
        have hfl : fuelObjList (kv :: kvs) ≤ f := by
          have he : fuelFor (.obj (kv :: kvs)) = 1 + fuelObjList (kv :: kvs) := rfl
          omega
        obtain ⟨k, v⟩ := kv
        have hflat : serVal lvl (.obj ((k, v) :: kvs)) ++ rest =
            '{' :: ('\n' :: (indentChars (lvl + 1)
              ++ (serObjItems (lvl + 1) ((k, v) :: kvs)
                ++ ('\n' :: (indentChars lvl ++ ('}' :: rest)))))) := by
          show ('{' :: '\n' :: indentChars (lvl + 1)
            ++ serObjItems (lvl + 1) ((k, v) :: kvs)
            ++ '\n' :: indentChars lvl ++ ['}']) ++ rest = _
          simp [List.cons_append, List.append_assoc]
        rw [hflat, parseValue.eq_3, if_neg (by decide), if_neg (by decide),
          if_neg (by decide), if_neg (by decide), if_neg (by decide), if_pos rfl,
          skipWs_newline_indent]
        have hex : ∃ t, serObjItems (lvl + 1) ((k, v) :: kvs)
            ++ ('\n' :: (indentChars lvl ++ ('}' :: rest))) = '"' :: t := by
          cases kvs with
          | nil => exact ⟨_, rfl⟩
          | cons kv2 kvs2 => exact ⟨_, rfl⟩
        obtain ⟨t, hc⟩ := hex
        rw [hc, skipWs_cons_of_not_ws _ _ (by decide)]
        show (if ('"' : Char) = '}' then some (Json.obj [], t)
          else parseObjectItems f ('"' :: t) []) = _
        rw [if_neg (by decide), ← hc]
        exact parse_serObj ((k, v) :: kvs) (by simp) hwf2 hnd f (lvl + 1) [] _ rest
          (by rw [skipWs_newline_indent, skipWs_cons_of_not_ws _ _ (by decide)])
          hfl (by simp)

/-- Scanning serialized array items followed by whitespace and the
closing bracket appends exactly those items. -/
theorem parse_serArr (xs : List Json) (hne : xs ≠ []) (hwf : wfKeysList xs = true) :
    ∀ (fuel lvl : Nat) (acc : List Json) (tail rest : List Char),
      skipWs tail = ']' :: rest → fuelList xs ≤ fuel →
      parseArrayItems fuel (serArrItems lvl xs ++ tail) acc =
        some (.arr (acc ++ xs), rest) := by
  intro fuel lvl acc tail rest htail hfuel
  cases xs with
  | nil => exact absurd rfl hne
  | cons x xs' =>
    obtain ⟨hwfx, hwf'⟩ : Json.wfKeys x = true ∧ wfKeysList xs' = true := by
      simpa [wfKeysList, Bool.and_eq_true] using hwf
    cases fuel with
    | zero =>
      have he : fuelList (x :: xs') = 1 + fuelFor x + fuelList xs' := rfl
      omega
    | succ f =>
      have hfx : fuelFor x ≤ f := by
        have he : fuelList (x :: xs') = 1 + fuelFor x + fuelList xs' := rfl
        omega
      rw [parseArrayItems.eq_2]
      cases xs' with
      | nil =>
        have hs : serArrItems lvl [x] = serVal lvl x := rfl
        rw [hs, parse_serVal x hwfx f lvl tail hfx
          (numBoundary_of_skipWs tail rest ']' htail (by decide) (by decide)
            (by decide) (by decide))]
        show (match skipWs tail with
          | [] => none
          | d :: r =>
            if d = ',' then parseArrayItems f (skipWs r) (acc ++ [x])
            else if d = ']' then some (Json.arr (acc ++ [x]), r) else none) = _
        rw [htail]
        show (if (']' : Char) = ',' then parseArrayItems f (skipWs rest) (acc ++ [x])
          else if (']' : Char) = ']' then some (Json.arr (acc ++ [x]), rest)
          else none) = _
        rw [if_neg (by decide), if_pos rfl]
      | cons y ys =>
        have hflat : serArrItems lvl (x :: y :: ys) ++ tail =
            serVal lvl x ++ (',' :: ('\n' :: (indentChars lvl
              ++ (serArrItems lvl (y :: ys) ++ tail)))) := by
          show (serVal lvl x ++ ',' :: '\n' :: indentChars lvl
            ++ serArrItems lvl (y :: ys)) ++ tail = _
          simp [List.cons_append, List.append_assoc]
        rw [hflat, parse_serVal x hwfx f lvl
          (',' :: ('\n' :: (indentChars lvl ++ (serArrItems lvl (y :: ys) ++ tail))))
          hfx rfl]
        show (match skipWs (',' :: ('\n' :: (indentChars lvl
            ++ (serArrItems lvl (y :: ys) ++ tail)))) with
          | [] => none
          | d :: r =>
            if d = ',' then parseArrayItems f (skipWs r) (acc ++ [x])
            else if d = ']' then some (Json.arr (acc ++ [x]), r) else none) = _
        rw [skipWs_cons_of_not_ws _ _ (by decide)]
        show (if (',' : Char) = ',' then parseArrayItems f
            (skipWs ('\n' :: (indentChars lvl ++ (serArrItems lvl (y :: ys) ++ tail))))
            (acc ++ [x])
          else if (',' : Char) = ']' then some (Json.arr (acc ++ [x]),
            '\n' :: (indentChars lvl ++ (serArrItems lvl (y :: ys) ++ tail)))
          else none) = _
        rw [if_pos rfl, skipWs_newline_indent]
        obtain ⟨c0, cs0, hitems, hw0, _⟩ := serArrItems_head lvl y ys
        have hc : serArrItems lvl (y :: ys) ++ tail = c0 :: (cs0 ++ tail) := by
          rw [hitems]
          rfl
        rw [hc, skipWs_cons_of_not_ws _ _ hw0, ← hc,
          parse_serArr (y :: ys) (by simp) hwf' f lvl (acc ++ [x]) tail rest htail
            (by
              have he : fuelList (x :: y :: ys) =
                1 + fuelFor x + fuelList (y :: ys) := rfl
              omega)]
        simp

/-- Scanning serialized object entries followed by whitespace and the
closing brace appends exactly those entries, keys staying distinct. -/
theorem parse_serObj (kvs : List (String × Json)) (hne : kvs ≠ [])
    (hwf : wfKeysObjList kvs = true)
    (hnd : nodupKeys (kvs.map Prod.fst) = true) :
    ∀ (fuel lvl : Nat) (acc : List (String × Json)) (tail rest : List Char),
      skipWs tail = '}' :: rest → fuelObjList kvs ≤ fuel →
      (∀ key ∈ kvs.map Prod.fst, key ∉ acc.map Prod.fst) →
      parseObjectItems fuel (serObjItems lvl kvs ++ tail) acc =
        some (.obj (acc ++ kvs), rest) := by
  intro fuel lvl acc tail rest htail hfuel hdisj
  cases kvs with
  | nil => exact absurd rfl hne
  | cons kv kvs' =>
    obtain ⟨k, v⟩ := kv
    obtain ⟨hwfv, hwf'⟩ : Json.wfKeys v = true ∧ wfKeysObjList kvs' = true := by
      simpa [wfKeysObjList, Bool.and_eq_true] using hwf
    obtain ⟨hkfresh, hnd'⟩ : (kvs'.map Prod.fst).contains k = false ∧
        nodupKeys (kvs'.map Prod.fst) = true := by
      have h2 : nodupKeys (k :: kvs'.map Prod.fst) = true := by simpa using hnd
      rw [show nodupKeys (k :: kvs'.map Prod.fst) =
        (!((kvs'.map Prod.fst).contains k) && nodupKeys (kvs'.map Prod.fst)) from rfl,
        Bool.and_eq_true, Bool.not_eq_true'] at h2
      exact h2
    cases fuel with
    | zero =>
      have he : fuelObjList ((k, v) :: kvs') = 1 + fuelFor v + fuelObjList kvs' := rfl
      omega
    | succ f =>
      have hfv : fuelFor v ≤ f := by
        have he : fuelObjList ((k, v) :: kvs') = 1 + fuelFor v + fuelObjList kvs' := rfl
        omega
      have hkacc : k ∉ acc.map Prod.fst :=
        hdisj k (by simp)
      have hinsert : pyInsert acc k v = acc ++ [(k, v)] := pyInsert_fresh acc k v hkacc
      cases kvs' with
      | nil =>
        have hflat : serObjItems lvl [(k, v)] ++ tail =
            '"' :: (escapeString k.data
              ++ ('"' :: (':' :: (' ' :: (serVal lvl v ++ tail))))) := by
          show ('"' :: escapeString k.data ++ '"' :: ':' :: ' ' :: serVal lvl v) ++ tail = _
          simp [List.cons_append, List.append_assoc]
        rw [hflat, parseObjectItems.eq_3, if_pos rfl]
        have hfuel2 : (k.data).length <
            (escapeString k.data
              ++ ('"' :: (':' :: (' ' :: (serVal lvl v ++ tail))))).length + 1 := by
          have := escapeString_length_ge k.data
          rw [List.length_append]
          omega
        rw [parseStringAux_escape k.data _ [] _ hfuel2]
        show (match skipWs (':' :: (' ' :: (serVal lvl v ++ tail))) with
          | [] => none
          | d :: r =>
            if d = ':' then
              match parseValue f (skipWs r) with
              | none => none
              | some (w, rest3) =>
                match skipWs rest3 with
                | [] => none
                | e :: r2 =>
                  if e = ',' then parseObjectItems f (skipWs r2)
                    (pyInsert acc (String.mk (List.reverse [] ++ k.data)) w)
                  else if e = '}' then
                    some (Json.obj (pyInsert acc (String.mk (List.reverse [] ++ k.data)) w), r2)
                  else none
            else none) = _
        rw [skipWs_cons_of_not_ws _ _ (by decide)]
        show (if (':' : Char) = ':' then
            match parseValue f (skipWs (' ' :: (serVal lvl v ++ tail))) with
            | none => none
            | some (w, rest3) =>
              match skipWs rest3 with
              | [] => none
              | e :: r2 =>
                if e = ',' then parseObjectItems f (skipWs r2)
                  (pyInsert acc (String.mk (List.reverse [] ++ k.data)) w)
                else if e = '}' then
                  some (Json.obj (pyInsert acc (String.mk (List.reverse [] ++ k.data)) w), r2)
                else none
          else none) = _
        rw [if_pos rfl, skipWs_cons_of_ws _ _ (by decide), skipWs_serVal_append,
          parse_serVal v hwfv f lvl tail hfv
            (numBoundary_of_skipWs tail rest '}' htail (by decide) (by decide)
              (by decide) (by decide))]
        show (match skipWs tail with
          | [] => none
          | e :: r2 =>
            if e = ',' then parseObjectItems f (skipWs r2)
              (pyInsert acc (String.mk (List.reverse [] ++ k.data)) v)
            else if e = '}' then
              some (Json.obj (pyInsert acc (String.mk (List.reverse [] ++ k.data)) v), r2)
            else none) = _
        rw [htail]
        show (if ('}' : Char) = ',' then parseObjectItems f (skipWs rest)
            (pyInsert acc (String.mk (List.reverse [] ++ k.data)) v)
          else if ('}' : Char) = '}' then
            some (Json.obj (pyInsert acc (String.mk (List.reverse [] ++ k.data)) v), rest)
          else none) = _
        rw [if_neg (by decide), if_pos rfl]
        show some (Json.obj (pyInsert acc (String.mk k.data) v), rest) = _
        rw [string_mk_data, hinsert]
      | cons kv2 kvs2 =>
        obtain ⟨k2, v2⟩ := kv2
        have hflat : serObjItems lvl ((k, v) :: (k2, v2) :: kvs2) ++ tail =
            '"' :: (escapeString k.data
              ++ ('"' :: (':' :: (' ' :: (serVal lvl v
                ++ (',' :: ('\n' :: (indentChars lvl
                  ++ (serObjItems lvl ((k2, v2) :: kvs2) ++ tail))))))))) := by
          show ('"' :: escapeString k.data ++ '"' :: ':' :: ' ' :: serVal lvl v
            ++ ',' :: '\n' :: indentChars lvl
            ++ serObjItems lvl ((k2, v2) :: kvs2)) ++ tail = _
          simp [List.cons_append, List.append_assoc]
        rw [hflat, parseObjectItems.eq_3, if_pos rfl]
        have hfuel2 : (k.data).length <
            (escapeString k.data
              ++ ('"' :: (':' :: (' ' :: (serVal lvl v
                ++ (',' :: ('\n' :: (indentChars lvl
                  ++ (serObjItems lvl ((k2, v2) :: kvs2) ++ tail))))))))).length + 1 := by
          have := escapeString_length_ge k.data
          rw [List.length_append]
          omega
        rw [parseStringAux_escape k.data _ [] _ hfuel2]
        show (match skipWs (':' :: (' ' :: (serVal lvl v
            ++ (',' :: ('\n' :: (indentChars lvl
              ++ (serObjItems lvl ((k2, v2) :: kvs2) ++ tail))))))) with
          | [] => none
          | d :: r =>
            if d = ':' then
              match parseValue f (skipWs r) with
              | none => none
              | some (w, rest3) =>
                match skipWs rest3 with
                | [] => none
                | e :: r2 =>
                  if e = ',' then parseObjectItems f (skipWs r2)
                    (pyInsert acc (String.mk (List.reverse [] ++ k.data)) w)
                  else if e = '}' then
                    some (Json.obj (pyInsert acc (String.mk (List.reverse [] ++ k.data)) w), r2)
                  else none
            else none) = _
        rw [skipWs_cons_of_not_ws _ _ (by decide)]
        show (if (':' : Char) = ':' then
            match parseValue f (skipWs (' ' :: (serVal lvl v
              ++ (',' :: ('\n' :: (indentChars lvl
                ++ (serObjItems lvl ((k2, v2) :: kvs2) ++ tail))))))) with
            | none => none
            | some (w, rest3) =>
              match skipWs rest3 with
              | [] => none
              | e :: r2 =>
                if e = ',' then parseObjectItems f (skipWs r2)
                  (pyInsert acc (String.mk (List.reverse [] ++ k.data)) w)
                else if e = '}' then
                  some (Json.obj (pyInsert acc (String.mk (List.reverse [] ++ k.data)) w), r2)
                else none
          else none) = _
        rw [if_pos rfl, skipWs_cons_of_ws _ _ (by decide), skipWs_serVal_append,
          parse_serVal v hwfv f lvl
            (',' :: ('\n' :: (indentChars lvl
              ++ (serObjItems lvl ((k2, v2) :: kvs2) ++ tail))))
            hfv rfl]
        show (match skipWs (',' :: ('\n' :: (indentChars lvl
            ++ (serObjItems lvl ((k2, v2) :: kvs2) ++ tail)))) with
          | [] => none
          | e :: r2 =>
            if e = ',' then parseObjectItems f (skipWs r2)
              (pyInsert acc (String.mk (List.reverse [] ++ k.data)) v)
            else if e = '}' then
              some (Json.obj (pyInsert acc (String.mk (List.reverse [] ++ k.data)) v), r2)
            else none) = _
        rw [skipWs_cons_of_not_ws _ _ (by decide)]
        show (if (',' : Char) = ',' then parseObjectItems f
            (skipWs ('\n' :: (indentChars lvl
              ++ (serObjItems lvl ((k2, v2) :: kvs2) ++ tail))))
            (pyInsert acc (String.mk (List.reverse [] ++ k.data)) v)
          else if (',' : Char) = '}' then
            some (Json.obj (pyInsert acc (String.mk (List.reverse [] ++ k.data)) v),
              '\n' :: (indentChars lvl
                ++ (serObjItems lvl ((k2, v2) :: kvs2) ++ tail)))
          else none) = _
        rw [if_pos rfl, skipWs_newline_indent]
        have hex : ∃ t, serObjItems lvl ((k2, v2) :: kvs2) ++ tail = '"' :: t := by
          cases kvs2 with
          | nil => exact ⟨_, rfl⟩
          | cons kv3 kvs3 => exact ⟨_, rfl⟩
        obtain ⟨t, hc⟩ := hex
        rw [hc, skipWs_cons_of_not_ws _ _ (by decide), ← hc]
        show parseObjectItems f (serObjItems lvl ((k2, v2) :: kvs2) ++ tail)
          (pyInsert acc (String.mk k.data) v) = _
        rw [string_mk_data, hinsert,
          parse_serObj ((k2, v2) :: kvs2) (by simp) hwf' hnd' f lvl
            (acc ++ [(k, v)]) tail rest htail
            (by
              have he : fuelObjList ((k, v) :: (k2, v2) :: kvs2) =
                1 + fuelFor v + fuelObjList ((k2, v2) :: kvs2) := rfl
              omega)
            (by
              intro key hkey
              have hk2 : key ∉ acc.map Prod.fst :=
                hdisj key (by simpa using Or.inr (by simpa using hkey))
              have hk3 : key ≠ k := by
                intro he2
                subst he2
                exact (not_mem_of_contains_eq_false hkfresh) hkey
              simp [hk2, hk3])]
        simp

end

mutual

/-- The fuel a value needs is covered by the length of its serialized
form. -/
theorem fuelFor_le_serVal (v : Json) : ∀ lvl, fuelFor v ≤ (serVal lvl v).length := by
  intro lvl
  cases v with
  | null => show (1 : Nat) ≤ 4; decide
  | bool b =>
    cases b with
    | true => show (1 : Nat) ≤ 4; decide
    | false => show (1 : Nat) ≤ 5; decide
  | num n =>
    obtain ⟨c, cs, hser, _, _⟩ := serVal_head_facts lvl (.num n)
    rw [hser]
    show 1 ≤ (c :: cs).length
    simp
  | str s =>
    obtain ⟨c, cs, hser, _, _⟩ := serVal_head_facts lvl (.str s)
    rw [hser]
    show 1 ≤ (c :: cs).length
    simp
  | arr items =>
    cases items with
    | nil => show (1 : Nat) ≤ 2; decide
    | cons x xs =>
      have h1 := fuelList_le_serArrItems (x :: xs) (lvl + 1)
      have hser : serVal lvl (.arr (x :: xs)) = '[' :: '\n' :: indentChars (lvl + 1)
        ++ serArrItems (lvl + 1) (x :: xs) ++ '\n' :: indentChars lvl ++ [']'] := rfl
      rw [show fuelFor (.arr (x :: xs)) = 1 + fuelList (x :: xs) from rfl, hser]
      simp only [List.length_append, List.length_cons]
      omega
  | obj fields =>
    cases fields with
    | nil => show (1 : Nat) ≤ 2; decide
    | cons kv kvs =>
      have h1 := fuelObjList_le_serObjItems (kv :: kvs) (lvl + 1)
      obtain ⟨k, v⟩ := kv
      have hser : serVal lvl (.obj ((k, v) :: kvs)) = '{' :: '\n' :: indentChars (lvl + 1)
        ++ serObjItems (lvl + 1) ((k, v) :: kvs) ++ '\n' :: indentChars lvl ++ ['}'] := rfl
      rw [show fuelFor (.obj ((k, v) :: kvs)) = 1 + fuelObjList ((k, v) :: kvs) from rfl,
        hser]
      simp only [List.length_append, List.length_cons]
      omega

/-- The fuel an item list needs is covered by the length of its
serialization plus one. -/
theorem fuelList_le_serArrItems (xs : List Json) :
    ∀ lvl, fuelList xs ≤ (serArrItems lvl xs).length + 1 := by
  intro lvl
  cases xs with
  | nil => show (0 : Nat) ≤ 0 + 1; decide
  | cons x xs' =>
    cases xs' with
    | nil =>
      have h1 := fuelFor_le_serVal x lvl
      rw [show fuelList [x] = 1 + fuelFor x + fuelList [] from rfl,
        show serArrItems lvl [x] = serVal lvl x from rfl,
        show fuelList ([] : List Json) = 0 from rfl]
      omega
    | cons y ys =>
      have h1 := fuelFor_le_serVal x lvl
      have h2 := fuelList_le_serArrItems (y :: ys) lvl
      rw [show fuelList (x :: y :: ys) = 1 + fuelFor x + fuelList (y :: ys) from rfl,
        show serArrItems lvl (x :: y :: ys) = serVal lvl x ++ ',' :: '\n'
          :: indentChars lvl ++ serArrItems lvl (y :: ys) from rfl]
      simp only [List.length_append, List.length_cons]
      omega

/-- The fuel an entry list needs is covered by the length of its
serialization plus one. -/
theorem fuelObjList_le_serObjItems (kvs : List (String × Json)) :
    ∀ lvl, fuelObjList kvs ≤ (serObjItems lvl kvs).length + 1 := by
  intro lvl
  cases kvs with
  | nil => show (0 : Nat) ≤ 0 + 1; decide
  | cons kv kvs' =>
    obtain ⟨k, v⟩ := kv
    cases kvs' with
    | nil =>
      have h1 := fuelFor_le_serVal v lvl
      rw [show fuelObjList [(k, v)] = 1 + fuelFor v + fuelObjList [] from rfl,
        show serObjItems lvl [(k, v)] = '"' :: escapeString k.data
          ++ '"' :: ':' :: ' ' :: serVal lvl v from rfl,
        show fuelObjList ([] : List (String × Json)) = 0 from rfl]
      simp only [List.length_append, List.length_cons]
      omega
    | cons kv2 kvs2 =>
      have h1 := fuelFor_le_serVal v lvl
      have h2 := fuelObjList_le_serObjItems (kv2 :: kvs2) lvl
      rw [show fuelObjList ((k, v) :: kv2 :: kvs2) =
          1 + fuelFor v + fuelObjList (kv2 :: kvs2) from rfl,
        show serObjItems lvl ((k, v) :: kv2 :: kvs2) = '"' :: escapeString k.data
          ++ '"' :: ':' :: ' ' :: serVal lvl v ++ ',' :: '\n' :: indentChars lvl
          ++ serObjItems lvl (kv2 :: kvs2) from rfl]
      simp only [List.length_append, List.length_cons]
      omega

end

/-- json.loads inverts json.dump(indent=2) on every value whose objects
have distinct keys. -/
theorem jsonParse_dumps (v : Json) (hwf : v.wfKeys = true) :
    jsonParse (dumps v) = some v := by
  unfold jsonParse dumps
  obtain ⟨c, cs, hser, hw, _⟩ := serVal_head_facts 0 v
  have hskip : skipWs (String.mk (serVal 0 v)).data = serVal 0 v := by
    show skipWs (serVal 0 v) = _
    rw [hser, skipWs_cons_of_not_ws _ _ hw]
  rw [hskip]
  have hfuel : fuelFor v ≤ (String.mk (serVal 0 v)).length + 1 := by
    have h1 := fuelFor_le_serVal v 0
    show fuelFor v ≤ (serVal 0 v).length + 1
    omega
  have hmain := parse_serVal v hwf ((String.mk (serVal 0 v)).length + 1) 0 [] hfuel rfl
  rw [List.append_nil] at hmain
  rw [hmain]
  show (if skipWs [] = [] then some v else none) = some v
  exact if_pos rfl

/-! ## Claims about session.py -/

/-- C1: saving any session record create_session can return (a
JSON-decoded object: string keys, distinct at every level as Python dicts
guarantee) and loading it back from the same path yields a record equal to
the original — round-trip identity through storage. -/
theorem save_load_roundtrip (fields : List (String × Json)) (fs : FileSystem)
    (path : String) (hwf : (Json.obj fields).wfKeys = true) :
    load_session (save_session (Json.obj fields) fs path) path =
      .ok (.obj fields) := by
  unfold load_session save_session
  show (match (if path = path then some (dumps (Json.obj fields)) else fs path) with
    | none => Except.error LoadError.fileNotFound
    | some content =>
      match jsonParse content with
      | none => Except.error LoadError.jsonDecodeError
      | some v => Except.ok v) = _
  rw [if_pos rfl]
  show (match jsonParse (dumps (Json.obj fields)) with
    | none => Except.error LoadError.jsonDecodeError
    | some v => Except.ok v) = _
  rw [jsonParse_dumps _ hwf]

/-- Witness for C1 at a concrete session record with string, boolean and
numeric fields, stored over an empty filesystem at the default path. -/
theorem save_load_roundtrip_witness :
    (Json.obj [("accessJwt", .str "jwt-abc"), ("refreshJwt", .str "jwt-def"),
      ("handle", .str "user.example.com"), ("active", .bool true),
      ("count", .num 42)]).wfKeys = true ∧
    load_session
      (save_session
        (Json.obj [("accessJwt", .str "jwt-abc"), ("refreshJwt", .str "jwt-def"),
          ("handle", .str "user.example.com"), ("active", .bool true),
          ("count", .num 42)])
        (fun _ => none) "session.json") "session.json" =
      .ok (.obj [("accessJwt", .str "jwt-abc"), ("refreshJwt", .str "jwt-def"),
        ("handle", .str "user.example.com"), ("active", .bool true),
        ("count", .num 42)]) :=
  ⟨by decide,
    save_load_roundtrip
      [("accessJwt", .str "jwt-abc"), ("refreshJwt", .str "jwt-def"),
        ("handle", .str "user.example.com"), ("active", .bool true),
        ("count", .num 42)]
      (fun _ => none) "session.json" (by decide)⟩

/-- C7: load_session propagates failures rather than substituting a
default — an absent file raises the not-found error, and file content the
JSON decoder rejects raises the decode error. -/
theorem load_session_error_propagation (fs : FileSystem) (path : String)
    (content : String) :
    (fs path = none → load_session fs path = .error .fileNotFound) ∧
    (fs path = some content → jsonParse content = none →
      load_session fs path = .error .jsonDecodeError) := by
  constructor
  · intro h
    unfold load_session
    rw [h]
  · intro h hp
    unfold load_session
    rw [h]
    show (match jsonParse content with
      | none => Except.error LoadError.jsonDecodeError
      | some v => Except.ok v) = _
    rw [hp]

/-- Witness for C7: the empty filesystem yields the not-found error, and a
file holding a lone opening brace yields the decode error. -/
theorem load_session_error_propagation_witness :
    ((fun _ => none) : FileSystem) "session.json" = none ∧
    load_session (fun _ => none) "session.json" = .error .fileNotFound ∧
    ((fun _ => some "\x7b") : FileSystem) "session.json" = some "\x7b" ∧
    jsonParse "\x7b" = none ∧
    load_session (fun _ => some "\x7b") "session.json" = .error .jsonDecodeError :=
  ⟨rfl,
    (load_session_error_propagation (fun _ => none) "session.json" "").1 rfl,
    rfl, rfl,
    (load_session_error_propagation (fun _ => some "\x7b") "session.json" "\x7b").2 rfl rfl⟩

end SkyPanel
